import Mathlib

/-!
Verification of the ufoNormalizer core against its specification.

The Python source (src/ufonormalizer/__init__.py) is shallowly embedded:
pure functions become Lean functions, the XML writer's mutable state is
threaded explicitly, and the filesystem is modelled as a finite map from
names to contents.  Python `float` values are modelled as exact fractions
(`PyQ`, a numerator/denominator pair with semantic comparison operations);
`%.Nf` formatting is modelled as round-half-even to N decimal digits,
which agrees with CPython's formatting on every value whose binary
representation is exact (all values appearing in the theorems below).
Python `str` is modelled as Lean `String`; `str.lower` is modelled on the
ASCII range (all inputs in this development are ASCII).

Out-of-scope collaborators (the XML parser and the property-list
decoder/encoder) are modelled from the spec where needed; such
definitions carry a doc comment starting with `Modelled from the spec:`.
-/

namespace UfoN

/-! ## Python string and number primitives -/

/-- Models Python `str.lower` on a single character (ASCII range). -/
def pyLowerChar (c : Char) : Char :=
  if 'A' ≤ c ∧ c ≤ 'Z' then Char.ofNat (c.toNat + 32) else c

/-- Models Python `str.lower` (ASCII range). -/
def pyLower (s : String) : String :=
  String.mk (s.data.map pyLowerChar)

/-- The characters Python `str.strip()` removes (the ASCII whitespace set). -/
def pyIsSpace (c : Char) : Bool :=
  c = ' ' ∨ c = '\t' ∨ c = '\n' ∨ c = '\x0d' ∨ c = '\x0b' ∨ c = '\x0c'

/-- Models Python `str.strip()` at the character-list level. -/
def pyStripChars (l : List Char) : List Char :=
  ((l.dropWhile pyIsSpace).reverse.dropWhile pyIsSpace).reverse

/-- Models Python `str.strip()`. -/
def pyStrip (s : String) : String :=
  String.mk (pyStripChars s.data)

/-- The line boundaries recognized by Python `str.splitlines`. -/
def pyIsLineBreak (c : Char) : Bool :=
  c = '\n' ∨ c = '\x0d' ∨ c = '\x0b' ∨ c = '\x0c' ∨ c = '\x1c' ∨
  c = '\x1d' ∨ c = '\x1e' ∨ c.toNat = 0x85 ∨ c.toNat = 0x2028 ∨
  c.toNat = 0x2029

/-- Worker for `pySplitlines`: `acc` holds the current line reversed. -/
def pySplitlinesAux : List Char → List Char → List (List Char)
  | [], acc => if acc.isEmpty then [] else [acc.reverse]
  | '\x0d' :: '\n' :: rest, acc => acc.reverse :: pySplitlinesAux rest []
  | c :: rest, acc =>
    if pyIsLineBreak c then acc.reverse :: pySplitlinesAux rest []
    else pySplitlinesAux rest (c :: acc)

/-- Models Python `str.splitlines()`. -/
def pySplitlines (s : String) : List String :=
  (pySplitlinesAux s.data []).map String.mk

/-- Models Python `str.split(sep)` for a one-character separator,
at the character-list level.  Like Python, the result is never empty. -/
def splitOnChar (sep : Char) : List Char → List (List Char)
  | [] => [[]]
  | c :: rest =>
    if c = sep then [] :: splitOnChar sep rest
    else match splitOnChar sep rest with
      | [] => [[c]]
      | h :: t => (c :: h) :: t

/-- Models Python `sep.join(parts)` for a one-character separator. -/
def joinWithChar (sep : Char) : List (List Char) → List Char
  | [] => []
  | [l] => l
  | l :: rest => l ++ sep :: joinWithChar sep rest

/-- Models Python `str.split(" ", 1)`: break at the first space.
`none` models the ValueError raised on unpacking a splitless result. -/
def breakAtFirstSpace : List Char → Option (List Char × List Char)
  | [] => none
  | c :: rest =>
    if c = ' ' then some ([], rest)
    else (breakAtFirstSpace rest).map fun p => (c :: p.1, p.2)

/-- Base-`b` digits of `n`, least significant first, with explicit fuel
(structural recursion so that the kernel can evaluate it). -/
def natDigsAux (b : ℕ) : ℕ → ℕ → List ℕ
  | 0, _ => []
  | _ + 1, 0 => []
  | fuel + 1, n + 1 => (n + 1) % b :: natDigsAux b fuel ((n + 1) / b)

/-- Base-`b` digits of `n`, least significant first. -/
def natDigs (b n : ℕ) : List ℕ := natDigsAux b n n

/-- Value of a least-significant-first digit list in base `b`. -/
def ofDigs (b : ℕ) : List ℕ → ℕ
  | [] => 0
  | d :: rest => d + b * ofDigs b rest

/-- The character for a decimal digit. -/
def digitChar (d : ℕ) : Char := Char.ofNat (48 + d)

/-- Models Python `str(n)` for a natural number, at the character level. -/
def natStrChars (n : ℕ) : List Char :=
  if n = 0 then ['0'] else ((natDigs 10 n).map digitChar).reverse

/-- Models Python `str(n)` for a natural number. -/
def natStr (n : ℕ) : String := String.mk (natStrChars n)

/-- Models Python `str(z)` for an integer, at the character level. -/
def intStrChars (z : ℤ) : List Char :=
  if z < 0 then '-' :: natStrChars z.natAbs else natStrChars z.natAbs

/-- Models Python `str(z)` for an integer. -/
def intStr (z : ℤ) : String := String.mk (intStrChars z)

/-- Numeric value of a most-significant-first decimal digit character list. -/
def decValMSF (l : List Char) : ℕ :=
  l.foldl (fun a c => 10 * a + (c.toNat - 48)) 0

/-- Models Python `int(s)` (base 10): strip, optional sign, decimal digits.
(Underscore separators, accepted by Python 3.6+, are not modelled; no
input in this development contains them.) -/
def pyIntDec (s : String) : Option ℤ :=
  let l := pyStripChars s.data
  let sgn : ℤ := match l.head? with
    | some '-' => -1
    | _ => 1
  let l := match l with
    | '-' :: r => r
    | '+' :: r => r
    | _ => l
  if l ≠ [] ∧ l.all Char.isDigit then some (sgn * decValMSF l) else none

/-- Hexadecimal digit value, if the character is a hex digit. -/
def hexDigitVal (c : Char) : Option ℕ :=
  if '0' ≤ c ∧ c ≤ '9' then some (c.toNat - 48)
  else if 'a' ≤ c ∧ c ≤ 'f' then some (c.toNat - 87)
  else if 'A' ≤ c ∧ c ≤ 'F' then some (c.toNat - 55)
  else none

/-- Numeric value of a most-significant-first hex digit character list. -/
def hexValMSF (l : List Char) : ℕ :=
  l.foldl (fun a c => 16 * a + ((hexDigitVal c).getD 0)) 0

/-- Models Python `int(s, 16)`: strip, optional sign, optional `0x`/`0X`
marker, hex digits.  (Underscore separators are not modelled.) -/
def pyIntHex (s : String) : Option ℤ :=
  let l := pyStripChars s.data
  let sgn : ℤ := match l.head? with
    | some '-' => -1
    | _ => 1
  let l := match l with
    | '-' :: r => r
    | '+' :: r => r
    | _ => l
  let l := match l with
    | '0' :: 'x' :: r => r
    | '0' :: 'X' :: r => r
    | _ => l
  if l ≠ [] ∧ l.all (fun c => (hexDigitVal c).isSome) then
    some (sgn * hexValMSF l)
  else none

/-- The character for a hex digit, uppercase. -/
def hexDigitChar (d : ℕ) : Char :=
  if d < 10 then digitChar d else Char.ofNat (55 + d)

/-- Uppercase hexadecimal rendering of a natural number. -/
def hexUpperChars (n : ℕ) : List Char :=
  if n = 0 then ['0'] else ((natDigs 16 n).map hexDigitChar).reverse

/-- Models Python `f"... :04X"` formatting of an integer: uppercase hex,
zero padded to a total width of 4 (the sign counts toward the width). -/
def hexFmt4 (z : ℤ) : String :=
  let ds := hexUpperChars z.natAbs
  let sign : List Char := if z < 0 then ['-'] else []
  String.mk (sign ++ List.replicate (4 - (sign.length + ds.length)) '0' ++ ds)

/-- The exact value of a Python `float`, as a fraction.  The denominator
is positive for every value built in this development; fractions are not
reduced, and all comparisons are semantic (cross-multiplication), as
befits values compared by numeric equality in Python. -/
structure PyQ where
  num : ℤ
  den : ℤ
deriving DecidableEq

/-- Semantic equality of two fractions (`a == b` on Python floats). -/
def PyQ.eqv (a b : PyQ) : Bool := a.num * b.den = b.num * a.den

/-- Semantic `a ≤ b` (positive denominators). -/
def PyQ.lev (a b : PyQ) : Bool := a.num * b.den ≤ b.num * a.den

/-- `q == z` for an integer `z` (positive denominator). -/
def PyQ.eqInt (q : PyQ) (z : ℤ) : Bool := q.num = z * q.den

/-- `q < z` for an integer `z` (positive denominator). -/
def PyQ.ltInt (q : PyQ) (z : ℤ) : Bool := q.num < z * q.den

/-- `z < q` for an integer `z` (positive denominator). -/
def PyQ.gtInt (q : PyQ) (z : ℤ) : Bool := z * q.den < q.num

/-- Python truthiness of a float: nonzero. -/
def PyQ.truthy (q : PyQ) : Bool := q.num ≠ 0

/-- The integer `z` as a float. -/
def PyQ.ofInt (z : ℤ) : PyQ := ⟨z, 1⟩

/-- Round a fraction (with positive denominator) to the nearest integer,
ties to even: the rounding CPython's float formatting performs on the
exact binary value. -/
def roundHalfEven (q : PyQ) : ℤ :=
  let f := Int.fdiv q.num q.den
  let rNum := q.num - f * q.den
  if 2 * rNum < q.den then f
  else if q.den < 2 * rNum then f + 1
  else if f % 2 = 0 then f else f + 1

/-- Models Python `"%.<prec>f" % q` on the exact value `q`:
round half-even to `prec` decimal digits and render with a sign taken
from `q` itself (so `-0.04` renders as `-0.0` at precision 1). -/
def renderFixedChars (prec : ℕ) (q : PyQ) : List Char :=
  let n := roundHalfEven ⟨q.num * 10 ^ prec, q.den⟩
  let m := n.natAbs
  let sign : List Char := if q.num < 0 then ['-'] else []
  if prec = 0 then sign ++ natStrChars m
  else
    let fr := natStrChars (m % 10 ^ prec)
    sign ++ natStrChars (m / 10 ^ prec) ++
      '.' :: (List.replicate (prec - fr.length) '0' ++ fr)

/-- Models Python `"%.<prec>f" % q`. -/
def renderFixed (prec : ℕ) (q : PyQ) : String :=
  String.mk (renderFixedChars prec q)

/-- Take the leading run of decimal-digit characters. -/
def spanDigits (l : List Char) : List Char × List Char :=
  (l.takeWhile Char.isDigit, l.dropWhile Char.isDigit)

/-- Core of the Python `float(s)` parser, after stripping: optional sign,
`digits[.digits]` (at least one digit), optional `e`/`E` exponent.  The
result is the exact decimal value as a fraction with denominator a power
of ten. -/
def pyFloatChars (l : List Char) : Option PyQ :=
  let (neg, l) : Bool × List Char := match l with
    | '+' :: r => (false, r)
    | '-' :: r => (true, r)
    | _ => (false, l)
  let (ip, l) := spanDigits l
  let (fp, l) : List Char × List Char := match l with
    | '.' :: r => spanDigits r
    | _ => ([], l)
  if ip.isEmpty ∧ fp.isEmpty then none
  else
    let mantNum : ℤ := (decValMSF ip : ℤ) * 10 ^ fp.length + decValMSF fp
    let mantNum : ℤ := if neg then -mantNum else mantNum
    let mantDen : ℤ := 10 ^ fp.length
    match l with
    | [] => some ⟨mantNum, mantDen⟩
    | c :: r =>
      if c = 'e' ∨ c = 'E' then
        let (eneg, r) : Bool × List Char := match r with
          | '+' :: r2 => (false, r2)
          | '-' :: r2 => (true, r2)
          | _ => (false, r)
        let (ed, r) := spanDigits r
        if ed.isEmpty ∨ ¬r.isEmpty then none
        else if eneg then some ⟨mantNum, mantDen * 10 ^ decValMSF ed⟩
        else some ⟨mantNum * 10 ^ decValMSF ed, mantDen⟩
      else none

/-- Models Python `float(s)` for finite decimal literals.  (`inf`/`nan`
literals fall outside the exact-fraction model and parse as `none`;
underscore separators are not modelled.) -/
def pyFloat (s : String) : Option PyQ :=
  pyFloatChars (pyStripChars s.data)

/-- Models Python `str.zfill(w)`: left-pad with zeros to width `w`,
keeping a leading sign in front of the padding. -/
def pyZfill (w : ℕ) (s : String) : String :=
  match s.data with
  | c :: rest =>
    if c = '-' ∨ c = '+' then
      String.mk (c :: List.replicate (w - s.data.length) '0' ++ rest)
    else String.mk (List.replicate (w - s.data.length) '0' ++ s.data)
  | [] => String.mk (List.replicate w '0')

/-! ## XML writer (class `XMLWriter` and module-level helpers) -/

/-- A Python value as it appears in an attribute dictionary: a string,
a float, an int, or `None`. -/
inductive PyVal where
  | pstr (s : String)
  | pfloat (q : PyQ)
  | pint (z : ℤ)
  | pnone
deriving DecidableEq

/-- Escaping of one character for text content (`&`, `<`, `>`).
The source applies three sequential `str.replace` calls; since no
replacement string contains a character replaced later, this equals the
per-character expansion. -/
def xmlEscapeChar (c : Char) : List Char :=
  if c = '&' then "&amp;".data
  else if c = '<' then "&lt;".data
  else if c = '>' then "&gt;".data
  else [c]

/-- Models `xmlEscapeText`. -/
def xmlEscapeText (s : String) : String :=
  String.mk (s.data.map xmlEscapeChar).flatten

/-- Escaping of one character for an attribute name (adds `"`). -/
def xmlEscapeAttrChar (c : Char) : List Char :=
  if c = '"' then "&quot;".data else xmlEscapeChar c

/-- Models `xmlEscapeAttribute`. -/
def xmlEscapeAttribute (s : String) : String :=
  String.mk (s.data.map xmlEscapeAttrChar).flatten

/-- Models `xmlConvertInt` (`str(value)`). -/
def xmlConvertInt (z : ℤ) : String := intStr z

/-- Models `xmlConvertFloat` at the default float precision (10): format
with `%.10f`, strip trailing zeros, and convert to an integer if only a
trailing decimal point remains.  (The source keeps the precision in the
process-wide `FLOAT_FORMAT`; every claim below operates at the default.) -/
def xmlConvertFloat (q : PyQ) : String :=
  let string := renderFixedChars 10 q
  if string.contains '.' then
    let stripped := (string.reverse.dropWhile (fun c => c = '0')).reverse
    if stripped.getLast? = some '.' then
      xmlConvertInt ((pyIntDec (String.mk stripped.dropLast)).getD 0)
    else String.mk stripped
  else String.mk string

/-- Models `xmlConvertValue`: floats and ints are rendered numerically,
strings are text-escaped.  The source returns `None` unchanged for a
`None` value; the `"%s"` interpolation in `attributesToString` then
renders it as the string `None`, which is what this function returns. -/
def xmlConvertValue : PyVal → String
  | .pfloat q => xmlConvertFloat q
  | .pint z => xmlConvertInt z
  | .pstr s => xmlEscapeText s
  | .pnone => "None"

/-- Models the `xmlAttributeOrder` priority table (unlisted names map
to 100 and therefore sort after all listed names, alphabetically). -/
def xmlAttributeOrder : String → ℕ
  | "name" => 0
  | "base" => 1
  | "format" => 2
  | "fileName" => 3
  | "x" => 4
  | "y" => 5
  | "angle" => 6
  | "xScale" => 7
  | "xyScale" => 8
  | "yxScale" => 9
  | "yScale" => 10
  | "xOffset" => 11
  | "yOffset" => 12
  | "type" => 13
  | "smooth" => 14
  | "color" => 15
  | "identifier" => 16
  | _ => 100

/-- Lexicographic comparison of character lists by code point
(the comparison Python uses for `str`). -/
def charsLE : List Char → List Char → Bool
  | [], _ => true
  | _ :: _, [] => false
  | a :: as, b :: bs => if a < b then true else if b < a then false else charsLE as bs

/-- `s ≤ t` for strings, by code points. -/
def strLE (s t : String) : Bool := charsLE s.data t.data

/-- Stable insertion into a sorted list (helper for `sortBy`). -/
def insertSortedBy (le : α → α → Bool) (x : α) : List α → List α
  | [] => [x]
  | y :: rest => if le x y then x :: y :: rest else y :: insertSortedBy le x rest

/-- Stable insertion sort; models Python `sorted` with a `≤` test. -/
def sortBy (le : α → α → Bool) (l : List α) : List α :=
  l.foldr (insertSortedBy le) []

/-- Ordering of the `(priority, attributeName, value)` triples built in
`attributesToString`.  Attribute names within one element are distinct,
so the value component is never compared (as in the source, where
`sorted` would only reach it on a priority-and-name tie). -/
def attrSorterLE (x y : ℕ × String × PyVal) : Bool :=
  if x.1 < y.1 then true
  else if y.1 < x.1 then false
  else strLE x.2.1 y.2.1

/-- Models `XMLWriter.attributesToString`. -/
def attributesToString (attrs : List (String × PyVal)) : String :=
  let sorter := attrs.map fun p => (xmlAttributeOrder p.1, p.1, p.2)
  let formatted := (sortBy attrSorterLE sorter).map fun t =>
    xmlEscapeAttribute t.2.1 ++ "=\"" ++ xmlConvertValue t.2.2 ++ "\""
  String.intercalate " " formatted

def xmlDeclaration : String := "<?xml version=\"1.0\" encoding=\"UTF-8\"?>"

def plistDocType : String :=
  "<!DOCTYPE plist PUBLIC \"-//Apple//DTD PLIST 1.0//EN\" " ++
  "\"http://www.apple.com/DTDs/PropertyList-1.0.dtd\">"

def xmlTextMaxLineLength : ℕ := 70

def xmlLineBreak : String := "\n"

/-- The state of the source's `XMLWriter`: accumulated lines, current
indentation level, and the open-element stack (pushed at the head here;
the source pushes/pops at the end of a Python list). -/
structure XMLWriter where
  lines : List String
  indentLevel : ℕ
  stack : List String
deriving DecidableEq

/-- Models `XMLWriter.__init__` (with the default XML declaration). -/
def XMLWriter.new (isPropertyList : Bool := false) : XMLWriter :=
  { lines := [xmlDeclaration] ++ (if isPropertyList then [plistDocType] else []),
    indentLevel := 0,
    stack := [] }

/-- Models `XMLWriter.getText`.  The source asserts the stack is empty;
that holds at every call site in this development. -/
def XMLWriter.getText (w : XMLWriter) : String :=
  String.intercalate xmlLineBreak w.lines

/-- Models `XMLWriter.raw`: append one line, indented by one tab per
nesting level. -/
def XMLWriter.raw (w : XMLWriter) (line : String) : XMLWriter :=
  { w with lines := w.lines ++
      [String.mk (List.replicate w.indentLevel '\t' ++ line.data)] }

/-- The line `XMLWriter.simpleElement` builds before calling `raw`. -/
def simpleElementLine (tag : String) (attrs : List (String × PyVal))
    (value : Option String) : String :=
  let line :=
    if attrs ≠ [] then "<" ++ tag ++ " " ++ attributesToString attrs
    else "<" ++ tag
  match value with
  | some v => line ++ ">" ++ v ++ "</" ++ tag ++ ">"
  | none => line ++ "/>"

/-- Models `XMLWriter.simpleElement`. -/
def XMLWriter.simpleElement (w : XMLWriter) (tag : String)
    (attrs : List (String × PyVal) := []) (value : Option String := none) :
    XMLWriter :=
  w.raw (simpleElementLine tag attrs value)

/-- The line `XMLWriter.beginElement` builds before calling `raw`. -/
def beginElementLine (tag : String) (attrs : List (String × PyVal)) : String :=
  if attrs ≠ [] then "<" ++ tag ++ " " ++ attributesToString attrs ++ ">"
  else "<" ++ tag ++ ">"

/-- Models `XMLWriter.beginElement`. -/
def XMLWriter.beginElement (w : XMLWriter) (tag : String)
    (attrs : List (String × PyVal) := []) : XMLWriter :=
  let w := w.raw (beginElementLine tag attrs)
  { w with stack := tag :: w.stack, indentLevel := w.indentLevel + 1 }

/-- The line `XMLWriter.endElement` emits. -/
def endElementLine (tag : String) : String := "</" ++ tag ++ ">"

/-- Models `XMLWriter.endElement`.  The source asserts that `tag` is on
top of the stack; that holds at every call site in this development. -/
def XMLWriter.endElement (w : XMLWriter) (tag : String) : XMLWriter :=
  let w := { w with stack := w.stack.tail, indentLevel := w.indentLevel - 1 }
  w.raw (endElementLine tag)

/-! ## Property-list values and their serialization -/

/-- A typed property-list value (the values produced by the out-of-scope
property-list decoder and by `_convertPlistElementToObject`): string,
integer, real, boolean, array, mapping, byte-blob, date-time, plus
`pnull` for Python `None` (which `propertyListObject` skips). -/
inductive PlistValue where
  | pstr (s : String)
  | pint (z : ℤ)
  | preal (q : PyQ)
  | pbool (b : Bool)
  | parr (l : List PlistValue)
  | pdict (l : List (String × PlistValue))
  | pdata (bytes : List ℕ)
  | pdate (y mo d h mi s : ℕ)
  | pnull

/-- Python truthiness of a property-list value (used by `if obj:` and
`if data:` tests in the source). -/
def plistTruthy : PlistValue → Bool
  | .pstr s => s != ""
  | .pint z => z != 0
  | .preal q => q.truthy
  | .pbool b => b
  | .parr l => !l.isEmpty
  | .pdict l => !l.isEmpty
  | .pdata bytes => !bytes.isEmpty
  | .pdate _ _ _ _ _ _ => true
  | .pnull => false

/-- Ordering used by `sorted(data.items())` on dictionary items; the keys
of a Python dict are distinct, so only the key is ever compared. -/
def dictItemLE (x y : String × PlistValue) : Bool := strLE x.1 y.1

/-- The base64 alphabet character for a 6-bit value. -/
def b64Char (d : ℕ) : Char :=
  if d < 26 then Char.ofNat (65 + d)
  else if d < 52 then Char.ofNat (97 + (d - 26))
  else if d < 62 then Char.ofNat (48 + (d - 52))
  else if d = 62 then '+'
  else '/'

/-- Standard base64 encoding of a byte list (with `=` padding). -/
def b64EncodeGroups : List ℕ → List Char
  | [] => []
  | [a] => [b64Char (a / 4), b64Char (a % 4 * 16), '=', '=']
  | [a, b] => [b64Char (a / 4), b64Char (a % 4 * 16 + b / 16), b64Char (b % 16 * 4), '=']
  | a :: b :: c :: rest =>
    b64Char (a / 4) :: b64Char (a % 4 * 16 + b / 16) ::
    b64Char (b % 16 * 4 + c / 64) :: b64Char (c % 64) :: b64EncodeGroups rest

/-- Split a list into chunks of `n` (fuel-based structural recursion). -/
def chunksOfAux (n : ℕ) : ℕ → List α → List (List α)
  | 0, _ => []
  | _, [] => []
  | fuel + 1, l => l.take n :: chunksOfAux n fuel (l.drop n)

/-- Split a list into chunks of `n` elements. -/
def chunksOf (n : ℕ) (l : List α) : List (List α) := chunksOfAux n l.length l

/-- Left-pad the decimal rendering of `n` with zeros to width `w`
(Python `"%0<w>d" % n` for a non-negative value). -/
def padNat (w n : ℕ) : List Char :=
  List.replicate (w - (natStrChars n).length) '0' ++ natStrChars n

/-- Models `_dateToString`. -/
def dateToString (y mo d h mi s : ℕ) : String :=
  String.mk (padNat 4 y ++ '-' :: padNat 2 mo ++ '-' :: padNat 2 d ++
    'T' :: padNat 2 h ++ ':' :: padNat 2 mi ++ ':' :: padNat 2 s ++ ['Z'])

/-- The size of a sorted pair list equals the size of the original
(needed for termination of the property-list writer, which sorts
dictionary items before recursing into them). -/
theorem sizeOf_insertSortedBy {α : Type} [SizeOf α] (le : α → α → Bool)
    (x : α) (l : List α) :
    sizeOf (insertSortedBy le x l) = 1 + sizeOf x + sizeOf l := by
  induction l with
  | nil => simp [insertSortedBy]
  | cons y rest ih =>
    simp only [insertSortedBy]
    split
    · simp only [List.cons.sizeOf_spec]
      try omega
    · simp only [List.cons.sizeOf_spec, ih]
      try omega

theorem sizeOf_sortBy {α : Type} [SizeOf α] (le : α → α → Bool)
    (l : List α) : sizeOf (sortBy le l) = sizeOf l := by
  induction l with
  | nil => rfl
  | cons y rest ih =>
    show sizeOf (insertSortedBy le y (sortBy le rest)) = _
    rw [sizeOf_insertSortedBy, ih]
    simp only [List.cons.sizeOf_spec]
    try omega

mutual

/-- Models `XMLWriter.propertyListObject`: dispatch on the runtime type
of the value.  A float whose canonical rendering parses as an integer is
written as an integer element (`_plistFloat`/`_plistInt` are inlined
below exactly as the source composes them). -/
def propertyListObject (w : XMLWriter) (v : PlistValue) : XMLWriter :=
  match v with
  | .pnull => w
  | .parr l =>
    (plistArrayBody (w.beginElement "array" []) l).endElement "array"
  | .pdict l =>
    (plistDictBody (w.beginElement "dict" []) (sortBy dictItemLE l)).endElement "dict"
  | .pstr s => w.simpleElement "string" [] (some (xmlEscapeText s))
  | .pbool b =>
    if b then w.simpleElement "true" [] none else w.simpleElement "false" [] none
  | .pint z => w.simpleElement "integer" [] (some (xmlConvertInt z))
  | .preal q =>
    let dataStr := xmlConvertFloat q
    match pyIntDec dataStr with
    | some z => w.simpleElement "integer" [] (some (xmlConvertInt z))
    | none => w.simpleElement "real" [] (some dataStr)
  | .pdata bytes =>
    -- `_encode_base64` chunks at (70 // 4) * 3 = 51 bytes per line
    if bytes = [] then w.simpleElement "data" [] (some "")
    else
      let w := w.beginElement "data" []
      let w := (chunksOf 51 bytes).foldl
        (fun w chunk => w.raw (String.mk (b64EncodeGroups chunk))) w
      w.endElement "data"
  | .pdate y mo d h mi s => w.simpleElement "date" [] (some (dateToString y mo d h mi s))
termination_by sizeOf v
decreasing_by
  all_goals first
    | (simp only [sizeOf_sortBy, PlistValue.pdict.sizeOf_spec]; omega)
    | (simp only [PlistValue.parr.sizeOf_spec]; omega)
    | (simp only [List.cons.sizeOf_spec, Prod.mk.sizeOf_spec]; omega)
    | omega

/-- The loop body of `_plistArray`. -/
def plistArrayBody (w : XMLWriter) (l : List PlistValue) : XMLWriter :=
  match l with
  | [] => w
  | v :: rest => plistArrayBody (propertyListObject w v) rest
termination_by sizeOf l
decreasing_by
  all_goals first
    | (simp only [sizeOf_sortBy, PlistValue.pdict.sizeOf_spec]; omega)
    | (simp only [PlistValue.parr.sizeOf_spec]; omega)
    | (simp only [List.cons.sizeOf_spec, Prod.mk.sizeOf_spec]; omega)
    | omega

/-- The loop body of `_plistDict` (the items arrive already sorted). -/
def plistDictBody (w : XMLWriter) (l : List (String × PlistValue)) : XMLWriter :=
  match l with
  | [] => w
  | (k, v) :: rest =>
    plistDictBody
      (propertyListObject (w.simpleElement "key" [] (some (xmlEscapeText k))) v)
      rest
termination_by sizeOf l
decreasing_by
  all_goals first
    | (simp only [sizeOf_sortBy, PlistValue.pdict.sizeOf_spec]; omega)
    | (simp only [PlistValue.parr.sizeOf_spec]; omega)
    | (simp only [List.cons.sizeOf_spec, Prod.mk.sizeOf_spec]; omega)
    | omega

end

/-- Models `normalizePropertyList` (the preprocessor argument is applied
by the callers explicitly in this development). -/
def normalizePropertyList (data : PlistValue) : String :=
  let w := XMLWriter.new true
  let w := w.beginElement "plist" [("version", .pstr "1.0")]
  let w := propertyListObject w data
  let w := w.endElement "plist"
  let w := w.raw ""
  w.getText

/-! ## Parsed XML elements -/

/-- Modelled from the spec: the out-of-scope XML parser turns file bytes
into "a tree of tagged elements with ordered children, attributes
(string→string), and text content"; this is that tree. -/
inductive XElem where
  | mk (tag : String) (attrib : List (String × String)) (children : List XElem)
       (text : Option String)

def XElem.tag : XElem → String
  | .mk t _ _ _ => t

def XElem.attrib : XElem → List (String × String)
  | .mk _ a _ _ => a

def XElem.children : XElem → List XElem
  | .mk _ _ c _ => c

def XElem.text : XElem → Option String
  | .mk _ _ _ tx => tx

/-- Models `element.attrib.get(name)`. -/
def XElem.attrGet (e : XElem) (a : String) : Option String :=
  (e.attrib.find? (fun p => p.1 == a)).map Prod.snd

/-- Python dict assignment on an association list: update in place if the
key exists (keeping its position), append otherwise. -/
def dictSet (l : List (String × PlistValue)) (k : String) (v : PlistValue) :
    List (String × PlistValue) :=
  match l with
  | [] => [(k, v)]
  | (k2, v2) :: rest =>
    if k2 = k then (k, v) :: rest else (k2, v2) :: dictSet rest k v

/-- The base64 value of an alphabet character, if any. -/
def b64Val (c : Char) : Option ℕ :=
  if 'A' ≤ c ∧ c ≤ 'Z' then some (c.toNat - 65)
  else if 'a' ≤ c ∧ c ≤ 'z' then some (c.toNat - 97 + 26)
  else if '0' ≤ c ∧ c ≤ '9' then some (c.toNat - 48 + 52)
  else if c = '+' then some 62
  else if c = '/' then some 63
  else none

/-- Decode base64 6-bit groups into bytes. -/
def b64DecodeVals : List ℕ → List ℕ
  | a :: b :: c :: d :: rest =>
    (a * 4 + b / 16) :: (b % 16 * 16 + c / 4) :: (c % 4 * 64 + d) :: b64DecodeVals rest
  | [a, b] => [a * 4 + b / 16]
  | [a, b, c] => [a * 4 + b / 16, b % 16 * 16 + c / 4]
  | _ => []

/-- Models `binascii.a2b_base64`: non-alphabet characters (including
newlines and padding) are skipped. -/
def b64Decode (s : String) : List ℕ :=
  b64DecodeVals (s.data.filterMap b64Val)

/-- Models `_dateFromString` for the full `YYYY-MM-DDTHH:MM:SSZ` form
(the only form the property-list writer emits; on partial forms the
source raises while building the `datetime`, modelled as `none`). -/
def pyDateFromString (s : String) : Option PlistValue :=
  match s.data with
  | [y1, y2, y3, y4, '-', m1, m2, '-', d1, d2, 'T',
     h1, h2, ':', i1, i2, ':', s1, s2, 'Z'] =>
    if [y1, y2, y3, y4, m1, m2, d1, d2, h1, h2, i1, i2, s1, s2].all Char.isDigit then
      some (.pdate (decValMSF [y1, y2, y3, y4]) (decValMSF [m1, m2])
        (decValMSF [d1, d2]) (decValMSF [h1, h2]) (decValMSF [i1, i2])
        (decValMSF [s1, s2]))
    else none
  | _ => none

mutual

/-- Models `_convertPlistElementToObject`.  Number and date parse
failures, on which the source raises, are modelled as `pnull`; a `key`
element with no text (Python would use `None` as the dict key) is
modelled as the empty-string key. -/
def convertPlistElementToObject : XElem → PlistValue
  | .mk tag _ children text =>
    if tag = "array" then .parr (convArr children)
    else if tag = "dict" then .pdict (convDictBody [] none children)
    else if tag = "string" then .pstr (text.getD "")
    else if tag = "data" then .pdata (b64Decode (text.getD ""))
    else if tag = "date" then (pyDateFromString (text.getD "")).getD .pnull
    else if tag = "true" then .pbool true
    else if tag = "false" then .pbool false
    else if tag = "real" then
      match pyFloat (text.getD "") with
      | some q => .preal q
      | none => .pnull
    else if tag = "integer" then
      match pyIntDec (text.getD "") with
      | some z => .pint z
      | none => .pnull
    else .pnull

/-- The `array` loop of `_convertPlistElementToObject`. -/
def convArr : List XElem → List PlistValue
  | [] => []
  | e :: rest => convertPlistElementToObject e :: convArr rest

/-- The `dict` loop of `_convertPlistElementToObject`: `key` elements set
the pending key, other elements assign into the accumulated dict. -/
def convDictBody (acc : List (String × PlistValue)) (key : Option String) :
    List XElem → List (String × PlistValue)
  | [] => acc
  | e :: rest =>
    if e.tag = "key" then convDictBody acc (some (e.text.getD "")) rest
    else convDictBody (dictSet acc (key.getD "") (convertPlistElementToObject e)) key rest

end

/-- Models `_normalizeColorString`. -/
def normalizeColorString (value : String) : Option String :=
  if value.data.count ',' ≠ 3 then none
  else
    match (splitOnChar ',' value.data).mapM (fun p => pyFloatChars (pyStripChars p)) with
    | none => none
    | some vals =>
      if vals.any (fun x => x.ltInt 0 ∨ x.gtInt 1) then none
      else some (String.intercalate "," (vals.map xmlConvertFloat))

/-! ## GLIF element normalization -/

/-- Equality of `Except` results is decidable componentwise (needed for
concrete evaluations in the theorems below). -/
instance {e a : Type} [DecidableEq e] [DecidableEq a] : DecidableEq (Except e a) :=
  fun x y =>
    match x, y with
    | .ok u, .ok v =>
      if h : u = v then .isTrue (by rw [h]) else .isFalse (by simp [h])
    | .error u, .error v =>
      if h : u = v then .isTrue (by rw [h]) else .isFalse (by simp [h])
    | .ok _, .error _ => .isFalse (by simp)
    | .error _, .ok _ => .isFalse (by simp)

/-- The Python exceptions this embedding distinguishes. -/
inductive PyErr where
  | typeError
  | valueError
  | indexError
  | ufoNormalizerError (msg : String)
  | nameTranslationError
deriving DecidableEq

/-- A Python value in `Option` form, as stored in attribute dicts. -/
def pyOfOptStr : Option String → PyVal
  | some s => .pstr s
  | none => .pnone

/-- `d.get(k)` on an attribute dict built in this development. -/
def attrsGet (l : List (String × PyVal)) (k : String) : Option PyVal :=
  (l.find? (fun p => p.1 == k)).map Prod.snd

/-- Models `_normalizeGlifUnicode`. -/
def normalizeGlifUnicode (e : XElem) (w : XMLWriter) : XMLWriter :=
  match e.attrGet "hex" with
  | none => w
  | some v =>
    if v = "" then w
    else
      match pyIntHex v with
      | none => w
      | some d => w.simpleElement "unicode" [("hex", .pstr (hexFmt4 d))] none

/-- Models `_normalizeGlifAdvance`: parse width/height (defaulting to
`"0"`), drop the element if both are zero or either is unparseable, and
write only the nonzero attributes.  Note that the nonzero test is made
on the parsed float, before formatting. -/
def normalizeGlifAdvance (e : XElem) (w : XMLWriter) : XMLWriter :=
  let wS := (e.attrGet "width").getD "0"
  let hS := (e.attrGet "height").getD "0"
  match pyFloat wS, pyFloat hS with
  | some wv, some hv =>
    let attrs := (if wv.truthy then [("width", PyVal.pfloat wv)] else []) ++
                 (if hv.truthy then [("height", PyVal.pfloat hv)] else [])
    if attrs = [] then w else w.simpleElement "advance" attrs none
  | _, _ => w

def glifDefaultTransformation : List (String × ℤ) :=
  [("xScale", 1), ("xyScale", 0), ("yxScale", 0), ("yScale", 1),
   ("xOffset", 0), ("yOffset", 0)]

/-- Models `_normalizeGlifTransformation`: each axis is defaulted
individually; a parse failure skips just that axis. -/
def normalizeGlifTransformation (e : XElem) : List (String × PyVal) :=
  glifDefaultTransformation.filterMap fun p =>
    match e.attrGet p.1 with
    | none => none
    | some s =>
      match pyFloat s with
      | none => none
      | some q => if ¬ q.eqInt p.2 then some (p.1, .pfloat q) else none

/-- Models `_normalizeGlifImage`.  As in the source, a malformed color
still produces a `color` attribute (holding Python `None`). -/
def normalizeGlifImage (e : XElem) (w : XMLWriter) : XMLWriter :=
  match e.attrGet "fileName" with
  | none => w
  | some fn =>
    if fn = "" then w
    else
      let attrs := [("fileName", PyVal.pstr fn)] ++ normalizeGlifTransformation e ++
        (match e.attrGet "color" with
         | none => []
         | some c => [("color", match normalizeColorString c with
                                | some cc => PyVal.pstr cc
                                | none => PyVal.pnone)])
      w.simpleElement "image" attrs none

/-- Models `_normalizeGlifAnchor` (with the same color quirk as the
image element). -/
def normalizeGlifAnchor (e : XElem) (w : XMLWriter) : XMLWriter :=
  match e.attrGet "x", e.attrGet "y" with
  | some xs, some ys =>
    if xs = "" ∨ ys = "" then w
    else
      match pyFloat xs, pyFloat ys with
      | some xv, some yv =>
        let attrs := [("x", PyVal.pfloat xv), ("y", PyVal.pfloat yv)] ++
          (match e.attrGet "name" with
           | some n => [("name", PyVal.pstr n)]
           | none => []) ++
          (match e.attrGet "color" with
           | none => []
           | some c => [("color", match normalizeColorString c with
                                  | some cc => PyVal.pstr cc
                                  | none => PyVal.pnone)]) ++
          (match e.attrGet "identifier" with
           | some i => [("identifier", PyVal.pstr i)]
           | none => [])
        w.simpleElement "anchor" attrs none
      | _, _ => w
  | _, _ => w

/-- The input of `_normalizeDictGuideline`: six optional entries.  The
coordinate entries may hold numbers or strings; `color` is a string at
every call site that can reach the color normalization. -/
structure GuidelineIn where
  x : Option PyVal := none
  y : Option PyVal := none
  angle : Option PyVal := none
  name : Option PyVal := none
  color : Option String := none
  identifier : Option PyVal := none
deriving DecidableEq

/-- The normalized guideline dict produced by `_normalizeDictGuideline`. -/
structure GuidelineOut where
  x : Option PyQ := none
  y : Option PyQ := none
  angle : Option PyQ := none
  name : Option PyVal := none
  color : Option String := none
  identifier : Option PyVal := none
deriving DecidableEq

/-- Models Python `float(v)` on a value that may be a number or string. -/
def pyFloatOfVal : PyVal → Option PyQ
  | .pfloat q => some q
  | .pint z => some (PyQ.ofInt z)
  | .pstr s => pyFloat s
  | .pnone => none

/-- `v == 0` for an optional float (`None == 0` is `False` in Python). -/
def optIsZero : Option PyQ → Bool
  | some v => v.eqInt 0
  | none => false

/-- Models `_normalizeDictGuideline`.  `none` is a dropped guideline. -/
def normalizeDictGuideline (g : GuidelineIn) : Option GuidelineOut := do
  let x ← match g.x with
    | none => some none
    | some v => (pyFloatOfVal v).map some
  let y ← match g.y with
    | none => some none
    | some v => (pyFloatOfVal v).map some
  let angle ← match g.angle with
    | none => some none
    | some v => (pyFloatOfVal v).map some
  -- the 0-becomes-unset special case, applied sequentially as in the
  -- source (the second test sees the x already cleared by the first)
  let (x, y) :=
    if angle = none then
      let x2 := if optIsZero x ∧ y ≠ none then none else x
      let y2 := if optIsZero y ∧ x2 ≠ none then none else y
      (x2, y2)
    else (x, y)
  -- either x or y must be defined
  if x = none ∧ y = none then none
  -- if angle is specified, x and y must be specified
  else if (x = none ∨ y = none) ∧ angle ≠ none then none
  -- if x and y are specified, angle must be specified
  else if (x ≠ none ∧ y ≠ none) ∧ angle = none then none
  else
    some { x := x, y := y, angle := angle, name := g.name,
           color := g.color.bind normalizeColorString,
           identifier := g.identifier }

/-- The attribute list for a normalized guideline, in the insertion
order the source uses (the writer re-sorts it anyway). -/
def guidelineOutAttrs (n : GuidelineOut) : List (String × PyVal) :=
  (match n.x with | some q => [("x", PyVal.pfloat q)] | none => []) ++
  (match n.y with | some q => [("y", PyVal.pfloat q)] | none => []) ++
  (match n.angle with | some q => [("angle", PyVal.pfloat q)] | none => []) ++
  (match n.name with | some v => [("name", v)] | none => []) ++
  (match n.color with | some c => [("color", PyVal.pstr c)] | none => []) ++
  (match n.identifier with | some v => [("identifier", v)] | none => [])

/-- Models `_normalizeGlifGuideline`. -/
def normalizeGlifGuideline (e : XElem) (w : XMLWriter) : XMLWriter :=
  let converted : GuidelineIn :=
    { x := (e.attrGet "x").map .pstr,
      y := (e.attrGet "y").map .pstr,
      angle := (e.attrGet "angle").map .pstr,
      name := (e.attrGet "name").map .pstr,
      color := e.attrGet "color",
      identifier := (e.attrGet "identifier").map .pstr }
  match normalizeDictGuideline converted with
  | none => w
  | some n => w.simpleElement "guideline" (guidelineOutAttrs n) none

/-- The `public.markColor` canonicalization inside `_normalizeGlifLib`
(a non-string color value would make the source raise; modelled as a
dropped entry). -/
def markColorNormalize : PlistValue → PlistValue
  | .pdict l =>
    match l.find? (fun p => p.1 == "public.markColor") with
    | none => .pdict l
    | some kv =>
      let rest := l.filter (fun p => p.1 != "public.markColor")
      match kv.2 with
      | .pstr cs =>
        match normalizeColorString cs with
        | some cc => .pdict (rest ++ [("public.markColor", .pstr cc)])
        | none => .pdict rest
      | _ => .pdict rest
  | v => v

/-- Models `_normalizeGlifLib`. -/
def normalizeGlifLib (e : XElem) (w : XMLWriter) : XMLWriter :=
  match e.children with
  | [] => w
  | c :: _ =>
    let obj := convertPlistElementToObject c
    if plistTruthy obj then
      let obj := markColorNormalize obj
      ((propertyListObject (w.beginElement "lib" []) obj).endElement "lib")
    else w

/-- Models `_normalizeGlifNote`. -/
def normalizeGlifNote (e : XElem) (w : XMLWriter) : XMLWriter :=
  match e.text with
  | none => w
  | some value =>
    if value = "" then w
    else if pyStrip value = "" then w
    else w.simpleElement "note" [] (some (xmlEscapeText value))

/-- The result of `_normalizeGlifPointAttributesFormat1`: `none` models
the Python `None` returned on an unparseable x/y; `some []` models the
empty dict returned on a missing/empty x/y or an unknown point type. -/
def normalizeGlifPointAttributesFormat1 (e : XElem) :
    Option (List (String × PyVal)) :=
  match e.attrGet "x", e.attrGet "y" with
  | some xs, some ys =>
    if xs = "" ∨ ys = "" then some []
    else
      match pyFloat xs, pyFloat ys with
      | some xv, some yv =>
        let attrs := [("x", PyVal.pfloat xv), ("y", PyVal.pfloat yv)]
        let typ := (e.attrGet "type").getD "offcurve"
        if typ ∉ ["move", "line", "curve", "qcurve", "offcurve"] then some []
        else
          let attrs := attrs ++
            (if typ ≠ "offcurve" then
              [("type", PyVal.pstr typ)] ++
                (if e.attrGet "smooth" = some "yes" then
                  [("smooth", PyVal.pstr "yes")]
                else [])
            else []) ++
            (match e.attrGet "name" with
             | some n => [("name", PyVal.pstr n)]
             | none => [])
          some attrs
      | _, _ => none
  | _, _ => some []

/-- A format-1 contour classifies as a true contour or an implied anchor
(a single point of type `move`). -/
inductive ContourOrAnchor1 where
  | contour (points : List (List (String × PyVal)))
  | anchorPt (attrs : List (String × PyVal))
deriving DecidableEq

/-- The point-collection loop of `_normalizeGlifContourFormat1`: a falsy
point result (`None` or the empty dict) drops the whole contour. -/
def collectPoints1 : List XElem → Option (List (List (String × PyVal)))
  | [] => some []
  | e :: rest =>
    if e.tag ≠ "point" then collectPoints1 rest
    else
      match normalizeGlifPointAttributesFormat1 e with
      | none => none
      | some [] => none
      | some attrs => (collectPoints1 rest).map (attrs :: ·)

/-- Models `_normalizeGlifContourFormat1` (`none` = dropped).  The
source tags the returned dict with `type: anchor` / `type: contour`;
here the two cases are the two constructors. -/
def normalizeGlifContourFormat1 (e : XElem) : Option ContourOrAnchor1 :=
  match collectPoints1 e.children with
  | none => none
  | some points =>
    match points with
    | [] => none
    | [p] =>
      if attrsGet p "type" = some (.pstr "move") then some (.anchorPt p)
      else some (.contour points)
    | _ => some (.contour points)

/-- Models `_normalizeGlifComponentAttributesFormat1`. -/
def normalizeGlifComponentAttributesFormat1 (e : XElem) :
    List (String × PyVal) :=
  match e.attrGet "base" with
  | none => []
  | some b =>
    if b = "" then []
    else [("base", PyVal.pstr b)] ++ normalizeGlifTransformation e

/-- Models `_normalizeGlifComponentFormat1` (`none` = dropped). -/
def normalizeGlifComponentFormat1 (e : XElem) :
    Option (List (String × PyVal)) :=
  let c := normalizeGlifComponentAttributesFormat1 e
  if c = [] then none else some c

/-- One entry of the format-1 `outline` list: a contour's points or a
component's attributes. -/
inductive OutlineItem1 where
  | contourItem (points : List (List (String × PyVal)))
  | componentItem (attrs : List (String × PyVal))
deriving DecidableEq

/-- The collection loop of `_normalizeGlifOutlineFormat1`: one pass over
the children, regular contours and components in order into the first
list, implied anchors in order into the second. -/
def collectOutline1 : List XElem → List OutlineItem1 × List (List (String × PyVal))
  | [] => ([], [])
  | e :: rest =>
    let (outline, anchors) := collectOutline1 rest
    if e.tag = "contour" then
      match normalizeGlifContourFormat1 e with
      | none => (outline, anchors)
      | some (.contour pts) => (.contourItem pts :: outline, anchors)
      | some (.anchorPt a) => (outline, a :: anchors)
    else if e.tag = "component" then
      match normalizeGlifComponentFormat1 e with
      | none => (outline, anchors)
      | some attrs => (.componentItem attrs :: outline, anchors)
    else (outline, anchors)

/-- Rendering of one regular outline entry (format 1 and format 2 render
contour points and components identically). -/
def writeOutlineItem1 (w : XMLWriter) : OutlineItem1 → XMLWriter
  | .contourItem pts =>
    let w := w.beginElement "contour" []
    let w := pts.foldl (fun w p => w.simpleElement "point" p none) w
    w.endElement "contour"
  | .componentItem attrs => w.simpleElement "component" attrs none

/-- Rendering of one implied anchor as a synthetic single-point `move`
contour (`x`/`y` are always present in the stored attrs; the `getD` is
for totality only). -/
def anchorMoveAttrs (a : List (String × PyVal)) : List (String × PyVal) :=
  [("type", PyVal.pstr "move"),
   ("x", (attrsGet a "x").getD PyVal.pnone),
   ("y", (attrsGet a "y").getD PyVal.pnone)] ++
  (match attrsGet a "name" with
   | some n => [("name", n)]
   | none => [])

def writeAnchor1 (w : XMLWriter) (a : List (String × PyVal)) : XMLWriter :=
  ((w.beginElement "contour" []).simpleElement "point" (anchorMoveAttrs a) none).endElement "contour"

/-- Models `_normalizeGlifOutlineFormat1`. -/
def normalizeGlifOutlineFormat1 (e : XElem) (w : XMLWriter) : XMLWriter :=
  if e.children.isEmpty then w
  else
    let (outline, anchors) := collectOutline1 e.children
    if outline = [] ∧ anchors = [] then w
    else
      let w := w.beginElement "outline" []
      let w := outline.foldl writeOutlineItem1 w
      let w := anchors.foldl writeAnchor1 w
      w.endElement "outline"

/-- Models `_normalizeGlifPointAttributesFormat2`.  When the format-1
helper returns `None` (unparseable x/y) and an identifier is present,
the source's `attrs["identifier"] = identifier` raises `TypeError`. -/
def normalizeGlifPointAttributesFormat2 (e : XElem) :
    Except PyErr (Option (List (String × PyVal))) :=
  match normalizeGlifPointAttributesFormat1 e with
  | none =>
    match e.attrGet "identifier" with
    | some _ => .error .typeError
    | none => .ok none
  | some attrs =>
    match e.attrGet "identifier" with
    | some i => .ok (some (attrs ++ [("identifier", PyVal.pstr i)]))
    | none => .ok (some attrs)

/-- A format-2 contour: points plus an optional identifier. -/
structure Contour2 where
  points : List (List (String × PyVal))
  identifier : Option String
deriving DecidableEq

/-- The point-collection loop of `_normalizeGlifContourFormat2`: a falsy
point result drops the whole contour immediately (later points are not
evaluated, as in the source's early `return`). -/
def collectPoints2 : List XElem → Except PyErr (Option (List (List (String × PyVal))))
  | [] => .ok (some [])
  | e :: rest =>
    if e.tag ≠ "point" then collectPoints2 rest
    else
      match normalizeGlifPointAttributesFormat2 e with
      | .error er => .error er
      | .ok none => .ok none
      | .ok (some []) => .ok none
      | .ok (some attrs) =>
        match collectPoints2 rest with
        | .error er => .error er
        | .ok none => .ok none
        | .ok (some ps) => .ok (some (attrs :: ps))

/-- Models `_normalizeGlifContourFormat2` (`.ok none` = dropped). -/
def normalizeGlifContourFormat2 (e : XElem) : Except PyErr (Option Contour2) :=
  match collectPoints2 e.children with
  | .error er => .error er
  | .ok none => .ok none
  | .ok (some points) =>
    if points = [] then .ok none
    else .ok (some { points := points, identifier := e.attrGet "identifier" })

/-- Models `_normalizeGlifComponentAttributesFormat2`. -/
def normalizeGlifComponentAttributesFormat2 (e : XElem) :
    List (String × PyVal) :=
  let attrs := normalizeGlifComponentAttributesFormat1 e
  match e.attrGet "identifier" with
  | some i => attrs ++ [("identifier", PyVal.pstr i)]
  | none => attrs

/-- Models `_normalizeGlifComponentFormat2` (`none` = dropped). -/
def normalizeGlifComponentFormat2 (e : XElem) :
    Option (List (String × PyVal)) :=
  let c := normalizeGlifComponentAttributesFormat2 e
  if c = [] then none else some c

/-- One entry of the format-2 `outline` list. -/
inductive OutlineItem2 where
  | contourItem (c : Contour2)
  | componentItem (attrs : List (String × PyVal))
deriving DecidableEq

/-- The collection loop of `_normalizeGlifOutlineFormat2` (strict
document order, no anchor hoisting). -/
def collectOutline2 : List XElem → Except PyErr (List OutlineItem2)
  | [] => .ok []
  | e :: rest =>
    if e.tag = "contour" then
      match normalizeGlifContourFormat2 e with
      | .error er => .error er
      | .ok none => collectOutline2 rest
      | .ok (some c) => (collectOutline2 rest).map (.contourItem c :: ·)
    else if e.tag = "component" then
      match normalizeGlifComponentFormat2 e with
      | none => collectOutline2 rest
      | some attrs => (collectOutline2 rest).map (.componentItem attrs :: ·)
    else collectOutline2 rest

/-- Rendering of one format-2 outline entry. -/
def writeOutlineItem2 (w : XMLWriter) : OutlineItem2 → XMLWriter
  | .contourItem c =>
    let attrs := match c.identifier with
      | some i => [("identifier", PyVal.pstr i)]
      | none => []
    let w := w.beginElement "contour" attrs
    let w := c.points.foldl (fun w p => w.simpleElement "point" p none) w
    w.endElement "contour"
  | .componentItem attrs => w.simpleElement "component" attrs none

/-- Models `_normalizeGlifOutlineFormat2`. -/
def normalizeGlifOutlineFormat2 (e : XElem) (w : XMLWriter) :
    Except PyErr XMLWriter :=
  match collectOutline2 e.children with
  | .error er => .error er
  | .ok outline =>
    if outline = [] then .ok w
    else
      let w := w.beginElement "outline" []
      let w := outline.foldl writeOutlineItem2 w
      .ok (w.endElement "outline")

/-- The last child with a given tag (repeated top-level elements
overwrite earlier ones in the source's collection loop). -/
def lastWithTag (l : List XElem) (t : String) : Option XElem :=
  (l.filter (fun e => e.tag == t)).getLast?

/-- Models `normalizeGLIFString` on a parsed element tree (the XML
parser that produces the tree is an out-of-scope collaborator).
Returns the normalized text together with the contents of the
`imageFileRef` accumulator.  `.error` models the exceptions the source
can raise: a missing `format` attribute, an unparseable `format` value,
and the format-2 point `TypeError`. -/
def normalizeGLIFString (tree : XElem) :
    Except PyErr (String × List (Option String)) :=
  match tree.attrGet "format" with
  | none => .error (.ufoNormalizerError "Undefined GLIF format")
  | some fs =>
    match pyIntDec fs with
    | none => .error .valueError
    | some glifVersion =>
      let name := tree.attrGet "name"
      let advance := lastWithTag tree.children "advance"
      let unicodes := tree.children.filter (fun e => e.tag == "unicode")
      let note := lastWithTag tree.children "note"
      let image := lastWithTag tree.children "image"
      let guidelines := tree.children.filter (fun e => e.tag == "guideline")
      let anchors := tree.children.filter (fun e => e.tag == "anchor")
      let outline := lastWithTag tree.children "outline"
      let lib := lastWithTag tree.children "lib"
      let w := XMLWriter.new
      let w := w.beginElement "glyph"
        [("name", pyOfOptStr name), ("format", .pint glifVersion)]
      let w := unicodes.foldl (fun w u => normalizeGlifUnicode u w) w
      let w := match advance with
        | some a => normalizeGlifAdvance a w
        | none => w
      let (w, imageFileRef) : XMLWriter × List (Option String) :=
        if 2 ≤ glifVersion then
          match image with
          | some img => (normalizeGlifImage img w, [img.attrGet "fileName"])
          | none => (w, [])
        else (w, [])
      let afterOutline : Except PyErr XMLWriter :=
        match outline with
        | some o =>
          if glifVersion = 1 then .ok (normalizeGlifOutlineFormat1 o w)
          else normalizeGlifOutlineFormat2 o w
        | none => .ok w
      match afterOutline with
      | .error er => .error er
      | .ok w =>
        let w := if 2 ≤ glifVersion then
            anchors.foldl (fun w a => normalizeGlifAnchor a w) w
          else w
        let w := if 2 ≤ glifVersion then
            guidelines.foldl (fun w g => normalizeGlifGuideline g w) w
          else w
        let w := match lib with
          | some l => normalizeGlifLib l w
          | none => w
        let w := match note with
          | some n => normalizeGlifNote n w
          | none => w
        let w := (w.endElement "glyph").raw ""
        .ok (w.getText, imageFileRef)

/-! ## User name to file name -/

/-- The illegal-character set: `" * + / : < > ? [ \ ] |`, NUL and the
control characters 0x01-0x1F (`c.toNat ≤ 31` covers both), and 0x7F. -/
def illegalCharacters (c : Char) : Bool :=
  c = '"' ∨ c = '*' ∨ c = '+' ∨ c = '/' ∨ c = ':' ∨ c = '<' ∨ c = '>' ∨
  c = '?' ∨ c = '\\' ∨ c = '[' ∨ c = ']' ∨ c = '|' ∨ c.toNat ≤ 31 ∨
  c.toNat = 127

/-- The reserved device-name list, exactly as the source builds it
(including the literal `a:-z:` token). -/
def reservedFileNames : List String :=
  ["con", "prn", "aux", "clock$", "nul", "a:-z:", "com1",
   "lpt1", "lpt2", "lpt3", "com2", "com3", "com4"]

def maxFileNameLength : ℕ := 255

/-- Python slicing `l[:n]`, including the negative-index case. -/
def pySliceTo (l : List Char) (n : ℤ) : List Char :=
  if 0 ≤ n then l.take n.toNat else l.take ((l.length : ℤ) + n).toNat

/-- The per-character filter of `userNameToFileName`: illegal characters
become `_`; a character with a different lowercase form gets `_`
appended after it. -/
def filterUserNameChar (c : Char) : List Char :=
  if illegalCharacters c then ['_']
  else if c ≠ pyLowerChar c then [c, '_']
  else [c]

/-- The reserved-name step: split on `.`, prepend `_` to any part whose
lowercase form is reserved, and rejoin. -/
def reservedStep (l : List Char) : List Char :=
  joinWithChar '.' ((splitOnChar '.' l).map fun part =>
    if String.mk (part.map pyLowerChar) ∈ reservedFileNames then '_' :: part
    else part)

/-- The counter loop of `handleClash1` (fuel-based; the source breaks
when the counter reaches 999999999999999). -/
def clash1Loop (userName : String) (existing : List String) (pre suf : String) :
    ℕ → ℕ → Option String
  | 0, _ => none
  | fuel + 1, counter =>
    let name := userName ++ pyZfill 15 (natStr counter)
    let fullName := pre ++ name ++ suf
    if pyLower fullName ∉ existing then some fullName
    else if 999999999999999 ≤ counter + 1 then none
    else clash1Loop userName existing pre suf fuel (counter + 1)

/-- The counter loop of `handleClash2`. -/
def clash2Loop (existing : List String) (pre suf : String) (maxValue : ℕ) :
    ℕ → ℕ → Option String
  | 0, _ => none
  | fuel + 1, counter =>
    let fullName := pre ++ natStr counter ++ suf
    if pyLower fullName ∉ existing then some fullName
    else if maxValue ≤ counter + 1 then none
    else clash2Loop existing pre suf maxValue fuel (counter + 1)

/-- Models `handleClash2`.  `maxValue = int("9" * maxLength)` raises
`ValueError` when the prefix and suffix leave no room at all. -/
def handleClash2 (existing : List String) (pre suf : String) :
    Except PyErr String :=
  let maxLength : ℤ := (maxFileNameLength : ℤ) - pre.length - suf.length
  if maxLength ≤ 0 then .error .valueError
  else
    let maxValue : ℕ := 10 ^ maxLength.toNat - 1
    match clash2Loop existing pre suf maxValue maxValue 1 with
    | some n => .ok n
    | none => .error .nameTranslationError

/-- Models `handleClash1`: trim the name if the 15-digit counter would
overflow the length budget, then append counters starting at 1. -/
def handleClash1 (userName : String) (existing : List String) (pre suf : String) :
    Except PyErr String :=
  let prefixLength := pre.length
  let suffixLength := suf.length
  let userName :=
    if maxFileNameLength < prefixLength + userName.length + suffixLength + 15 then
      let length := prefixLength + userName.length + suffixLength + 15
      String.mk (pySliceTo userName.data ((maxFileNameLength : ℤ) - length))
    else userName
  match clash1Loop userName existing pre suf 999999999999999 1 with
  | some finalName => .ok finalName
  | none => handleClash2 existing pre suf

/-- Everything in `userNameToFileName` after the initial-period
replacement (which is where the source indexes `userName[0]`). -/
def userNameToFileNameBody (nameChars : List Char) (existing : List String)
    (pre suf : String) : Except PyErr String :=
  let filtered := (nameChars.map filterUserNameChar).flatten
  let sliceLength : ℤ := (maxFileNameLength : ℤ) - pre.length - suf.length
  let clipped := pySliceTo filtered sliceLength
  let named := reservedStep clipped
  let fullName := pre ++ String.mk named ++ suf
  if pyLower fullName ∈ existing then handleClash1 (String.mk named) existing pre suf
  else .ok fullName

/-- Models `userNameToFileName`.  With no prefix, the source evaluates
`userName[0]`, which raises `IndexError` on an empty name. -/
def userNameToFileName (userName : String) (existing : List String := [])
    (pre : String := "") (suf : String := "") : Except PyErr String :=
  if pre = "" then
    match userName.data with
    | [] => .error .indexError
    | c :: rest =>
      userNameToFileNameBody (if c = '.' then '_' :: rest else c :: rest)
        existing pre suf
  else userNameToFileNameBody userName.data existing pre suf

/-! ## Modification-time bookkeeping -/

/-- Python dict assignment on a generic association list. -/
def pyDictSet {α : Type} (l : List (String × α)) (k : String) (v : α) :
    List (String × α) :=
  match l with
  | [] => [(k, v)]
  | (k2, v2) :: rest =>
    if k2 = k then (k, v) :: rest else (k2, v2) :: pyDictSet rest k v

/-- Python `dict.get` on a generic association list. -/
def pyDictGet {α : Type} (l : List (String × α)) (k : String) : Option α :=
  (l.find? (fun p => p.1 == k)).map Prod.snd

def modTimeLibKey : String := "org.unifiedfontobject.normalizer.modTimes"

/-- Ordering of `sorted(modTimes.items())`: tuple order, key first. -/
def modTimeItemLE (x y : String × PyQ) : Bool :=
  if strLE x.1 y.1 then
    if strLE y.1 x.1 then x.2.lev y.2 else true
  else false

/-- Models `storeModTimes`: serialize as a `version:` line followed by
one `"%.1f <fileName>"` line per entry (sorted), stored under the lib
key.  The source's global `__version__` is the `version` argument. -/
def storeModTimes (version : String) (lib : List (String × String))
    (modTimes : List (String × PyQ)) : List (String × String) :=
  let lines := ("version: " ++ version) ::
    (sortBy modTimeItemLE modTimes).map fun p => renderFixed 1 p.2 ++ " " ++ p.1
  pyDictSet lib modTimeLibKey (String.intercalate "\n" lines)

/-- The line-parsing loop of `readModTimes` (a dict build, so duplicate
file names overwrite). -/
def readModTimeLines : List String → List (String × PyQ) →
    Except PyErr (List (String × PyQ))
  | [], acc => .ok acc
  | line :: rest, acc =>
    match breakAtFirstSpace line.data with
    | none => .error .valueError
    | some (mt, fn) =>
      match pyFloat (String.mk mt) with
      | none => .error .valueError
      | some q => readModTimeLines rest (pyDictSet acc (String.mk fn) q)

/-- Models `readModTimes`: an absent or empty blob and a version-tag
mismatch both yield the empty mapping. -/
def readModTimes (version : String) (lib : List (String × String)) :
    Except PyErr (List (String × PyQ)) :=
  match pyDictGet lib modTimeLibKey with
  | none => .ok []
  | some text =>
    if text = "" then .ok []
    else
      match pySplitlines text with
      | [] => .error .indexError
      | first :: rest =>
        let ver := String.mk (pyStripChars ((splitOnChar ':' first.data).getLastD []))
        if ver ≠ version then .ok []
        else readModTimeLines rest []

/-- Models `subpathNeedsRefresh`: the table is keyed by the last path
component; `latest` is the modification time reported by the filesystem
collaborator (only consulted when a stored time exists, as in the
source). -/
def subpathNeedsRefresh (modTimes : List (String × PyQ)) (key : String)
    (latest : PyQ) : Bool :=
  match pyDictGet modTimes key with
  | none => true
  | some previous => !(latest.eqv previous)

/-! ## The two-phase rename of `normalizeGlyphNames` -/

/-- A directory of sibling files: name → contents. -/
def Dir := String → Option String

/-- Models `os.rename` within one directory (POSIX semantics: an
existing destination is overwritten). -/
def fsRename (d : Dir) (src dst : String) : Dir :=
  fun n => if n = dst then d src else if n = src then none else d n

/-- The temporary name used for the pair at position `index`. -/
def tempName (i : ℕ) : String :=
  "org.unifiedfontobject.normalizer." ++ natStr i

/-- Phase 1 of the rename: move every changing file aside to its indexed
temporary name, accumulating `fromTempMapping` in insertion order. -/
def renamePhase1 (d : Dir) (i : ℕ) :
    List (String × String) → Dir × List (String × String)
  | [] => (d, [])
  | (oldName, newName) :: rest =>
    if newName = oldName then renamePhase1 d (i + 1) rest
    else
      let r := renamePhase1 (fsRename d oldName (tempName i)) (i + 1) rest
      (r.1, (tempName i, newName) :: r.2)

/-- Phase 2 of the rename: move each temporary to its final name. -/
def renamePhase2 (d : Dir) : List (String × String) → Dir
  | [] => d
  | (t, newName) :: rest => renamePhase2 (fsRename d t newName) rest

/-- The rename portion of `normalizeGlyphNames`: the glyph-sorted
`(oldFileName, newFileName)` pairs are processed in two phases so that
old and new name sets may overlap. -/
def normalizeGlyphNamesRenames (d : Dir) (pairs : List (String × String)) : Dir :=
  renamePhase2 (renamePhase1 d 0 pairs).1 (renamePhase1 d 0 pairs).2

/-- The `fromTempMapping` list phase 1 accumulates, described directly:
the pairs that change get `(tempName index, newName)` entries in order. -/
def tempMapping (i : ℕ) : List (String × String) → List (String × String)
  | [] => []
  | (oldName, newName) :: rest =>
    if newName = oldName then tempMapping (i + 1) rest
    else (tempName i, newName) :: tempMapping (i + 1) rest

/-! ## Image purge -/

/-- `s.endswith(pat)` via character lists (kernel-evaluable). -/
def pyEndsWith (s pat : String) : Bool := pat.data.isSuffixOf s.data

/-- `s.startswith(pat)` via character lists. -/
def pyStartsWith (s pat : String) : Bool := pat.data.isPrefixOf s.data

/-- Models `readImagesDirectory` applied to the on-disk listing of the
images directory: `glob("*.png")` matches exactly the names that end in
`.png` and are not hidden (glob's `*` never matches a leading dot). -/
def readImagesDirectory (listing : Finset String) : Finset String :=
  listing.filter fun n => pyEndsWith n ".png" = true ∧ pyStartsWith n "." = false

/-- Models `purgeImagesDirectory`: delete each listed file that exists;
the result is the remaining on-disk listing. -/
def purgeImagesDirectory (listing toPurge : Finset String) : Finset String :=
  listing \ toPurge

/-- The format-3 image garbage-collection fragment of `normalizeUFO`:
the available set is read up front, each layer contributes the set of
image names its glyphs reference, and the difference is purged after
all layers have been processed.  Returns the images directory listing
after the purge. -/
def normalizeUFOImagePurge (listing : Finset String)
    (layers : List (Finset String)) : Finset String :=
  let availableImages := readImagesDirectory listing
  let referencedImages := layers.foldl (· ∪ ·) ∅
  let imagesToPurge := availableImages \ referencedImages
  purgeImagesDirectory listing imagesToPurge

/-! ## Concrete inputs used by the claim theorems -/

/-- A GLIF tree whose advance width is nonzero but smaller than half the
last digit of the 10-decimal float format. -/
def glifTinyAdvance : XElem :=
  .mk "glyph" [("name", "a"), ("format", "2")]
    [.mk "advance" [("width", "0.00000000001")] [] none] none

/-- Modelled from the spec: the out-of-scope XML parser applied to the
text the first normalization of `glifTinyAdvance` produces (that text is
spelled out in the theorem below); this is the element tree it denotes. -/
def glifTinyAdvanceReparsed : XElem :=
  .mk "glyph" [("name", "a"), ("format", "2")]
    [.mk "advance" [("width", "0")] [] none] none

/-- A format-2 contour whose only point has no x/y but an identifier. -/
def contourIdentifierOnlyPoint : XElem :=
  .mk "contour" [] [.mk "point" [("identifier", "i1")] [] none] none

/-- A format-2 contour whose only point has an unparseable x and an
identifier. -/
def contourBadXIdentifierPoint : XElem :=
  .mk "contour" [] [.mk "point" [("x", "a"), ("y", "1"), ("identifier", "i1")] [] none] none

/-- A format-2 glyph containing `contourIdentifierOnlyPoint`. -/
def glifIdentifierOnlyPoint : XElem :=
  .mk "glyph" [("name", "a"), ("format", "2")]
    [.mk "outline" [] [contourIdentifierOnlyPoint] none] none

/-- A two-glyph directory in which the renaming swaps the two file
names, the worst case for a naive in-place rename. -/
def swapDir : Dir := fun s =>
  if s = "A.glif" then some "contentsA"
  else if s = "B.glif" then some "contentsB"
  else if s = "other.txt" then some "other"
  else none

/-- The swap of the two glyph files of `swapDir`. -/
def swapPairs : List (String × String) :=
  [("A.glif", "B.glif"), ("B.glif", "A.glif")]

/-- A line with the indentation the writer adds at nesting level `lvl`. -/
def indentStr (lvl : ℕ) (s : String) : String :=
  String.mk (List.replicate lvl '\t' ++ s.data)

/-- The classification of one format-1 outline child as a regular entry
(a true contour or a component), if it survives normalization. -/
def fmt1Regular (e : XElem) : Option OutlineItem1 :=
  if e.tag = "contour" then
    match normalizeGlifContourFormat1 e with
    | some (.contour pts) => some (.contourItem pts)
    | _ => none
  else if e.tag = "component" then
    (normalizeGlifComponentFormat1 e).map .componentItem
  else none

/-- The classification of one format-1 outline child as an implied
anchor, if it is one. -/
def fmt1Anchor (e : XElem) : Option (List (String × PyVal)) :=
  if e.tag = "contour" then
    match normalizeGlifContourFormat1 e with
    | some (.anchorPt a) => some a
    | _ => none
  else none

/-- The lines a regular outline entry contributes at nesting level `lvl`. -/
def outlineItem1Lines (lvl : ℕ) : OutlineItem1 → List String
  | .contourItem pts =>
    indentStr lvl (beginElementLine "contour" []) ::
      (pts.map fun p => indentStr (lvl + 1) (simpleElementLine "point" p none)) ++
      [indentStr lvl (endElementLine "contour")]
  | .componentItem attrs =>
    [indentStr lvl (simpleElementLine "component" attrs none)]

/-- The lines an implied anchor contributes at nesting level `lvl`: a
synthetic single-point `move` contour. -/
def anchor1Lines (lvl : ℕ) (a : List (String × PyVal)) : List String :=
  [indentStr lvl (beginElementLine "contour" []),
   indentStr (lvl + 1) (simpleElementLine "point" (anchorMoveAttrs a) none),
   indentStr lvl (endElementLine "contour")]

/-- The retention rule of the amended claim C3, stated from its words:
when angle is absent, an x equal to exactly 0 is treated as unset
whenever y is present (even a zero y); then a y equal to exactly 0 is
treated as unset whenever x is still present.  The guideline is kept
when at least one of x/y remains, angle present requires both
coordinates, and both coordinates require angle. -/
def guidelineSpecRule (x y angle : Option PyQ) :
    Option (Option PyQ × Option PyQ × Option PyQ) :=
  let x2 := if angle = none ∧ optIsZero x ∧ y ≠ none then none else x
  let y2 := if angle = none ∧ optIsZero y ∧ x2 ≠ none then none else y
  if (x2 ≠ none ∨ y2 ≠ none) ∧
     (angle ≠ none → x2 ≠ none ∧ y2 ≠ none) ∧
     (x2 ≠ none ∧ y2 ≠ none → angle ≠ none) then
    some (x2, y2, angle)
  else none

/-! ## Claim theorems -/

theorem raw_spec (w : XMLWriter) (s : String) :
    w.raw s = { lines := w.lines ++ [indentStr w.indentLevel s],
                indentLevel := w.indentLevel, stack := w.stack } := rfl

theorem simpleElement_spec (w : XMLWriter) (tag : String)
    (attrs : List (String × PyVal)) (value : Option String) :
    w.simpleElement tag attrs value =
      { lines := w.lines ++ [indentStr w.indentLevel (simpleElementLine tag attrs value)],
        indentLevel := w.indentLevel, stack := w.stack } := rfl

theorem beginElement_spec (w : XMLWriter) (tag : String)
    (attrs : List (String × PyVal)) :
    w.beginElement tag attrs =
      { lines := w.lines ++ [indentStr w.indentLevel (beginElementLine tag attrs)],
        indentLevel := w.indentLevel + 1, stack := tag :: w.stack } := rfl

theorem endElement_spec (w : XMLWriter) (tag : String) :
    w.endElement tag =
      { lines := w.lines ++ [indentStr (w.indentLevel - 1) (endElementLine tag)],
        indentLevel := w.indentLevel - 1, stack := w.stack.tail } := rfl

theorem foldl_point_lines (pts : List (List (String × PyVal))) (w : XMLWriter) :
    pts.foldl (fun w p => w.simpleElement "point" p none) w =
      { lines := w.lines ++
          pts.map fun p => indentStr w.indentLevel (simpleElementLine "point" p none),
        indentLevel := w.indentLevel, stack := w.stack } := by
  induction pts generalizing w with
  | nil => simp
  | cons p rest ih =>
    rw [List.foldl_cons, ih]
    simp [simpleElement_spec]

theorem writeOutlineItem1_spec (w : XMLWriter) (item : OutlineItem1) :
    writeOutlineItem1 w item =
      { lines := w.lines ++ outlineItem1Lines w.indentLevel item,
        indentLevel := w.indentLevel, stack := w.stack } := by
  cases item with
  | contourItem pts =>
    simp [writeOutlineItem1, outlineItem1Lines, beginElement_spec,
      foldl_point_lines, endElement_spec]
  | componentItem attrs =>
    simp [writeOutlineItem1, outlineItem1Lines, simpleElement_spec]

theorem foldl_outlineItem1_lines (items : List OutlineItem1) (w : XMLWriter) :
    items.foldl writeOutlineItem1 w =
      { lines := w.lines ++ (items.map (outlineItem1Lines w.indentLevel)).flatten,
        indentLevel := w.indentLevel, stack := w.stack } := by
  induction items generalizing w with
  | nil => simp
  | cons item rest ih =>
    rw [List.foldl_cons, ih, writeOutlineItem1_spec]
    simp

theorem writeAnchor1_spec (w : XMLWriter) (a : List (String × PyVal)) :
    writeAnchor1 w a =
      { lines := w.lines ++ anchor1Lines w.indentLevel a,
        indentLevel := w.indentLevel, stack := w.stack } := by
  simp [writeAnchor1, anchor1Lines, beginElement_spec, simpleElement_spec,
    endElement_spec]

theorem foldl_anchor1_lines (ancs : List (List (String × PyVal))) (w : XMLWriter) :
    ancs.foldl writeAnchor1 w =
      { lines := w.lines ++ (ancs.map (anchor1Lines w.indentLevel)).flatten,
        indentLevel := w.indentLevel, stack := w.stack } := by
  induction ancs generalizing w with
  | nil => simp
  | cons a rest ih =>
    rw [List.foldl_cons, ih, writeAnchor1_spec]
    simp

theorem collectOutline1_eq_filterMap (l : List XElem) :
    collectOutline1 l = (l.filterMap fmt1Regular, l.filterMap fmt1Anchor) := by
  induction l with
  | nil => rfl
  | cons e rest ih =>
    simp only [collectOutline1, ih, List.filterMap_cons]
    by_cases hc : e.tag = "contour"
    · simp only [hc, if_pos, fmt1Regular, fmt1Anchor, if_pos rfl]
      cases h : normalizeGlifContourFormat1 e with
      | none => simp [hc, h]
      | some coa => cases coa <;> simp [hc, h]
    · by_cases hk : e.tag = "component"
      · simp only [fmt1Regular, fmt1Anchor, hc, hk]
        cases h : normalizeGlifComponentFormat1 e <;> simp [hc, hk, h]
      · simp [fmt1Regular, fmt1Anchor, hc, hk]

/-- C8: in a format-1 outline, the emitted element body consists of the
surviving regular contours and components, in their original relative
order, followed by the implied anchors, in their original relative
order, each anchor rendered as a synthetic single-point `move` contour;
the outline element is omitted when there is nothing to emit.  And a
child classifies as an implied anchor exactly when it is a contour
whose valid points are exactly one point of type `move`. -/
theorem C8_format1_implied_anchors_order (e : XElem) (w : XMLWriter) :
    (normalizeGlifOutlineFormat1 e w =
      if e.children.filterMap fmt1Regular = [] ∧ e.children.filterMap fmt1Anchor = []
      then w
      else
        { lines := w.lines ++
            indentStr w.indentLevel (beginElementLine "outline" []) ::
            (((e.children.filterMap fmt1Regular).map
                (outlineItem1Lines (w.indentLevel + 1))).flatten ++
             ((e.children.filterMap fmt1Anchor).map
                (anchor1Lines (w.indentLevel + 1))).flatten ++
             [indentStr w.indentLevel (endElementLine "outline")]),
          indentLevel := w.indentLevel, stack := w.stack }) ∧
    (∀ c a, fmt1Anchor c = some a ↔
      c.tag = "contour" ∧ collectPoints1 c.children = some [a] ∧
        attrsGet a "type" = some (.pstr "move")) := by
  constructor
  · by_cases he : e.children.isEmpty
    · have h0 : e.children = [] := List.isEmpty_iff.mp he
      simp [normalizeGlifOutlineFormat1, he, h0]
    · rw [Bool.not_eq_true] at he
      simp only [normalizeGlifOutlineFormat1, he, Bool.false_eq_true, if_false,
        collectOutline1_eq_filterMap]
      split
      · rfl
      · rw [beginElement_spec, foldl_outlineItem1_lines,
          foldl_anchor1_lines, endElement_spec]
        simp
  · intro c a
    unfold fmt1Anchor normalizeGlifContourFormat1
    by_cases hc : c.tag = "contour"
    · simp only [hc, if_pos rfl, true_and]
      cases h : collectPoints1 c.children with
      | none => simp [h]
      | some ps =>
        match ps with
        | [] => simp
        | [p] =>
          by_cases ht : attrsGet p "type" = some (.pstr "move") <;>
            simp [ht] <;> aesop
        | p :: q :: rest => simp
    · simp [hc]

theorem handleClash2_ne_indexError (existing : List String) (pre suf : String) :
    handleClash2 existing pre suf ≠ .error .indexError := by
  unfold handleClash2
  dsimp only
  split
  · simp
  · split <;> simp

theorem handleClash1_ne_indexError (userName : String) (existing : List String)
    (pre suf : String) :
    handleClash1 userName existing pre suf ≠ .error .indexError := by
  unfold handleClash1
  dsimp only
  split
  · simp
  · exact handleClash2_ne_indexError existing pre suf

theorem userNameToFileNameBody_ne_indexError (nameChars : List Char)
    (existing : List String) (pre suf : String) :
    userNameToFileNameBody nameChars existing pre suf ≠ .error .indexError := by
  unfold userNameToFileNameBody
  dsimp only
  split
  · exact handleClash1_ne_indexError _ existing pre suf
  · simp

/-- C1: normalization is NOT idempotent, so the claim fails on the code.
The glyph `glifTinyAdvance` carries `width="0.00000000001"`: the first
pass keeps the advance element (the nonzero test is made on the parsed
float) but formats the width as `0`; re-normalizing the tree denoted by
that output (`glifTinyAdvanceReparsed`) then drops the advance element
entirely, so the second pass is not byte-identical to the first. -/
theorem C1_normalizeGLIFString_not_idempotent :
    (normalizeGLIFString glifTinyAdvance).map Prod.fst =
      .ok ("<?xml version=\"1.0\" encoding=\"UTF-8\"?>\n<glyph name=\"a\" " ++
        "format=\"2\">\n\t<advance width=\"0\"/>\n</glyph>\n") ∧
    (normalizeGLIFString glifTinyAdvanceReparsed).map Prod.fst =
      .ok ("<?xml version=\"1.0\" encoding=\"UTF-8\"?>\n<glyph name=\"a\" " ++
        "format=\"2\">\n</glyph>\n") ∧
    (normalizeGLIFString glifTinyAdvanceReparsed).map Prod.fst ≠
      (normalizeGLIFString glifTinyAdvance).map Prod.fst :=
  ⟨by decide, by decide, by decide⟩

/-- C4: the claim fails on the code.  A format-2 point with no x/y but
an identifier is NOT dropped: `_normalizeGlifPointAttributesFormat2`
adds the identifier to the empty attribute dict, making it truthy, so
the containing contour is kept and `<point identifier="i1"/>` is
emitted.  A point with a present-but-unparseable x and an identifier
raises `TypeError` instead of dropping the contour. -/
theorem C4_format2_invalid_point_contour_not_dropped :
    normalizeGlifContourFormat2 contourIdentifierOnlyPoint =
      .ok (some { points := [[("identifier", PyVal.pstr "i1")]], identifier := none }) ∧
    (normalizeGLIFString glifIdentifierOnlyPoint).map Prod.fst =
      .ok ("<?xml version=\"1.0\" encoding=\"UTF-8\"?>\n<glyph name=\"a\" " ++
        "format=\"2\">\n\t<outline>\n\t\t<contour>\n\t\t\t<point " ++
        "identifier=\"i1\"/>\n\t\t</contour>\n\t</outline>\n</glyph>\n") ∧
    normalizeGlifContourFormat2 contourBadXIdentifierPoint = .error .typeError :=
  ⟨by decide, by decide, by decide⟩

/-- C5: the two round-trip examples hold: `userNameToFileName("A", {})`
is `"A_"` (the uppercase character gets a trailing underscore marker),
and with `"a_"` already taken case-insensitively the first zero-padded
15-digit counter value, starting at 1, is appended. -/
theorem C5_userNameToFileName_examples :
    userNameToFileName "A" [] "" "" = .ok "A_" ∧
    userNameToFileName "A" ["a_"] "" "" = .ok "A_000000000000001" :=
  ⟨by decide, by decide⟩

/-- C7: `subpathNeedsRefresh` returns true exactly when no stored time
exists for the key or the stored time differs from the current on-disk
time (plain inequality in either direction). -/
theorem C7_subpathNeedsRefresh_iff (modTimes : List (String × PyQ))
    (key : String) (latest : PyQ) :
    subpathNeedsRefresh modTimes key latest = true ↔
      pyDictGet modTimes key = none ∨
      ∃ previous, pyDictGet modTimes key = some previous ∧
        latest.eqv previous = false := by
  unfold subpathNeedsRefresh
  cases h : pyDictGet modTimes key with
  | none => simp
  | some p => simp [h]

/-- C3 counterexample: a guideline with x = 0, y = 0 and no angle is NOT
dropped (the claim says every combination outside its rule is dropped):
the source's first zeroing test clears x (y is present); the second test
then sees x already cleared and keeps y, so the guideline is retained as
`{y: 0}`. -/
theorem C3_counterexample_guideline_zero_zero :
    normalizeDictGuideline { x := some (.pint 0), y := some (.pint 0) } =
      some { y := some (PyQ.ofInt 0) } := by decide

/-- C3 (amended): on numeric inputs, `_normalizeDictGuideline` keeps a
guideline exactly according to `guidelineSpecRule` — in particular
`{x:1, y:2, angle:3}` is retained fully, `{x:1, y:2}` with no angle is
dropped, `{x:0, y:100}` with no angle becomes `{y:100}`, and (the
amendment) `{x:0, y:0}` with no angle becomes `{y:0}` — with name and
identifier passed through and the color normalized. -/
theorem C3_guideline_retention (x y angle : Option PyQ)
    (name : Option PyVal) (color : Option String) (identifier : Option PyVal) :
    normalizeDictGuideline
      { x := x.map .pfloat, y := y.map .pfloat, angle := angle.map .pfloat,
        name := name, color := color, identifier := identifier } =
      (guidelineSpecRule x y angle).map fun t =>
        { x := t.1, y := t.2.1, angle := t.2.2, name := name,
          color := color.bind normalizeColorString, identifier := identifier } := by
  unfold normalizeDictGuideline guidelineSpecRule
  cases x <;> cases y <;> cases angle <;>
    simp [pyFloatOfVal, Option.bind, optIsZero] <;>
    split_ifs <;> simp_all <;>
    (rename_i h; exact absurd h.1 (by simp [h.2.2]))

/-- C6 counterexample: the mod-time cache serializes times at one
decimal place, so a mapping holding 0.25 (a value exact in binary
floating point) is read back as 0.2: store-then-load under the same
version does not return the original mapping. -/
theorem C6_counterexample_quarter_mtime :
    readModTimes "1.0" (storeModTimes "1.0" [] [("f", ⟨1, 4⟩)]) =
      .ok [("f", ⟨2, 10⟩)] ∧
    PyQ.eqv ⟨2, 10⟩ ⟨1, 4⟩ = false :=
  ⟨by decide, by decide⟩

/-- C9 counterexample: the orphan set is computed from the `*.png` glob,
not from the full directory listing.  With `a.txt` on disk and nothing
referenced, the claim's orphan set is `{a.txt}` and purging it would
empty the directory, but the code leaves `a.txt` in place. -/
theorem C9_counterexample_non_png_never_purged :
    normalizeUFOImagePurge {"a.txt"} [] = {"a.txt"} ∧
    purgeImagesDirectory {"a.txt"}
      (({"a.txt"} : Finset String) \
        (([] : List (Finset String)).foldl (· ∪ ·) ∅)) = ∅ :=
  ⟨by decide, by decide⟩

/-- C9 (amended): for every on-disk listing and family of per-layer
referenced-image sets, the files removed by the purge are exactly the
`*.png` listing (the glob `readImagesDirectory` returns) minus the union
of all layers' references, and no referenced file is ever removed. -/
theorem C9_image_purge (listing : Finset String) (layers : List (Finset String)) :
    listing \ normalizeUFOImagePurge listing layers =
      readImagesDirectory listing \ layers.foldl (· ∪ ·) ∅ ∧
    ∀ f, f ∈ layers.foldl (· ∪ ·) ∅ →
      f ∉ listing \ normalizeUFOImagePurge listing layers := by
  unfold normalizeUFOImagePurge purgeImagesDirectory
  constructor
  · ext a
    simp only [Finset.mem_sdiff, readImagesDirectory, Finset.mem_filter]
    tauto
  · intro f hf
    simp only [Finset.mem_sdiff, readImagesDirectory, Finset.mem_filter]
    tauto

theorem fsRename_other (d : Dir) (s t x : String) (hx1 : x ≠ t) (hx2 : x ≠ s) :
    fsRename d s t x = d x := by simp [fsRename, hx1, hx2]

theorem fsRename_dst (d : Dir) (s t : String) : fsRename d s t t = d s := by
  simp [fsRename]

theorem fsRename_src (d : Dir) (s t : String) (h : s ≠ t) :
    fsRename d s t s = none := by simp [fsRename, h]

theorem digitChar_toNat : ∀ d < 10, (digitChar d).toNat = 48 + d := by decide

theorem natDigsAux_lt (b : ℕ) (hb : 0 < b) :
    ∀ fuel n, ∀ d ∈ natDigsAux b fuel n, d < b := by
  intro fuel
  induction fuel with
  | zero => intro n d hd; cases hd
  | succ fuel ih =>
    intro n d hd
    match n with
    | 0 => cases hd
    | m + 1 =>
      simp only [natDigsAux, List.mem_cons] at hd
      rcases hd with h | h
      · subst h; exact Nat.mod_lt _ hb
      · exact ih _ _ h

theorem ofDigs_natDigsAux (b : ℕ) (hb : 2 ≤ b) :
    ∀ fuel n, n ≤ fuel → ofDigs b (natDigsAux b fuel n) = n := by
  intro fuel
  induction fuel with
  | zero =>
    intro n h
    interval_cases n
    rfl
  | succ fuel ih =>
    intro n hn
    match n with
    | 0 => rfl
    | m + 1 =>
      simp only [natDigsAux, ofDigs]
      rw [ih ((m + 1) / b) (by
        have : (m + 1) / b < m + 1 := Nat.div_lt_self (Nat.succ_pos m) hb
        omega)]
      exact Nat.mod_add_div (m + 1) b

theorem decValMSF_rev_map (l : List ℕ) (h : ∀ d ∈ l, d < 10) :
    decValMSF ((l.map digitChar).reverse) = ofDigs 10 l := by
  induction l with
  | nil => rfl
  | cons d rest ih =>
    have hd : d < 10 := h d (by simp)
    have hrest : ∀ x ∈ rest, x < 10 := fun x hx => h x (by simp [hx])
    simp only [List.map_cons, List.reverse_cons]
    unfold decValMSF
    rw [List.foldl_append]
    have : decValMSF ((rest.map digitChar).reverse) = ofDigs 10 rest := ih hrest
    unfold decValMSF at this
    rw [this]
    simp only [List.foldl_cons, List.foldl_nil, ofDigs]
    rw [digitChar_toNat d hd]
    omega

theorem decValMSF_natStrChars (n : ℕ) : decValMSF (natStrChars n) = n := by
  by_cases h : n = 0
  · subst h; rfl
  · rw [natStrChars, if_neg h]
    unfold natDigs
    rw [decValMSF_rev_map _ (natDigsAux_lt 10 (by norm_num) _ _)]
    exact ofDigs_natDigsAux 10 (by norm_num) n n le_rfl

theorem natStrChars_inj {m n : ℕ} (h : natStrChars m = natStrChars n) : m = n := by
  have := congrArg decValMSF h
  rwa [decValMSF_natStrChars, decValMSF_natStrChars] at this

theorem tempName_inj {i j : ℕ} (h : tempName i = tempName j) : i = j := by
  unfold tempName natStr at h
  have hd := congrArg String.data h
  simp only [String.data_append] at hd
  exact natStrChars_inj (List.append_cancel_left hd)

theorem renamePhase1_snd (pairs : List (String × String)) :
    ∀ (d : Dir) (i : ℕ), (renamePhase1 d i pairs).2 = tempMapping i pairs := by
  induction pairs with
  | nil => intro d i; rfl
  | cons p rest ih =>
    intro d i
    obtain ⟨o, n⟩ := p
    by_cases hno : n = o <;> simp [renamePhase1, tempMapping, hno, ih]

theorem tempMapping_mem {pairs : List (String × String)} {t n : String} :
    ∀ {i : ℕ}, (t, n) ∈ tempMapping i pairs →
    ∃ k, ∃ hk : k < pairs.length, t = tempName (i + k) ∧
      (pairs.get ⟨k, hk⟩).2 = n ∧ n ≠ (pairs.get ⟨k, hk⟩).1 := by
  induction pairs with
  | nil => intro i h; cases h
  | cons p rest ih =>
    intro i h
    obtain ⟨o2, n2⟩ := p
    by_cases hno : n2 = o2
    · rw [tempMapping, if_pos hno] at h
      obtain ⟨k, hk, ht, hsnd, hne⟩ := ih h
      exact ⟨k + 1, by simpa using Nat.succ_lt_succ hk,
        by rw [ht]; exact congrArg tempName (by omega), hsnd, hne⟩
    · rw [tempMapping, if_neg hno] at h
      rcases List.mem_cons.mp h with heq | h2
      · injection heq with h1 h2
        refine ⟨0, by simp, by simpa using h1, ?_, ?_⟩
        · simp only [List.get]
          exact h2.symm
        · simp only [List.get]
          rw [h2]
          exact hno
      · obtain ⟨k, hk, ht, hsnd, hne⟩ := ih h2
        exact ⟨k + 1, by simpa using Nat.succ_lt_succ hk,
          by rw [ht]; exact congrArg tempName (by omega), hsnd, hne⟩

theorem tempMapping_mem_of (pairs : List (String × String)) :
    ∀ (i k : ℕ) (hk : k < pairs.length),
    (pairs.get ⟨k, hk⟩).2 ≠ (pairs.get ⟨k, hk⟩).1 →
    (tempName (i + k), (pairs.get ⟨k, hk⟩).2) ∈ tempMapping i pairs := by
  induction pairs with
  | nil => intro i k hk; cases hk
  | cons p rest ih =>
    intro i k hk hmoved
    obtain ⟨o, n⟩ := p
    match k with
    | 0 =>
      simp only [List.get] at hmoved ⊢
      rw [tempMapping, if_neg hmoved]
      simp
    | k' + 1 =>
      simp only [List.get] at hmoved ⊢
      have hk' : k' < rest.length := by simpa using Nat.lt_of_succ_lt_succ hk
      have := ih (i + 1) k' hk' hmoved
      have harith : tempName (i + 1 + k') = tempName (i + (k' + 1)) :=
        congrArg tempName (by omega)
      by_cases hno : n = o
      · rw [tempMapping, if_pos hno]
        rw [← harith]
        exact this
      · rw [tempMapping, if_neg hno]
        exact List.mem_cons_of_mem _ (harith ▸ this)

theorem tempMapping_keys_nodup (pairs : List (String × String)) :
    ∀ i, ((tempMapping i pairs).map Prod.fst).Nodup := by
  induction pairs with
  | nil => intro i; simp [tempMapping]
  | cons p rest ih =>
    intro i
    obtain ⟨o, n⟩ := p
    by_cases hno : n = o
    · rw [tempMapping, if_pos hno]; exact ih (i + 1)
    · rw [tempMapping, if_neg hno]
      simp only [List.map_cons, List.nodup_cons]
      refine ⟨?_, ih (i + 1)⟩
      intro hmem
      obtain ⟨⟨t2, n2⟩, hmem2, heq⟩ := List.mem_map.mp hmem
      obtain ⟨k, -, ht, -, -⟩ := tempMapping_mem hmem2
      have h2 : tempName i = tempName (i + 1 + k) := by rw [← heq]; exact ht
      have := tempName_inj h2
      omega

theorem tempMapping_values_sublist (pairs : List (String × String)) :
    ∀ i, ((tempMapping i pairs).map Prod.snd).Sublist (pairs.map Prod.snd) := by
  induction pairs with
  | nil => intro i; simp [tempMapping]
  | cons p rest ih =>
    intro i
    obtain ⟨o, n⟩ := p
    by_cases hno : n = o
    · rw [tempMapping, if_pos hno]
      exact (ih (i + 1)).trans (List.sublist_cons_self _ _)
    · rw [tempMapping, if_neg hno]
      simpa using List.Sublist.cons₂ n (ih (i + 1))

theorem renamePhase2_untouched (m : List (String × String)) :
    ∀ (d : Dir) (x : String), (∀ p ∈ m, x ≠ p.1 ∧ x ≠ p.2) →
    renamePhase2 d m x = d x := by
  induction m with
  | nil => intro d x _; rfl
  | cons p rest ih =>
    intro d x hx
    obtain ⟨t, n⟩ := p
    have h0 := hx (t, n) (by simp)
    rw [renamePhase2, ih _ x fun q hq => hx q (List.mem_cons_of_mem _ hq)]
    exact fsRename_other d t n x h0.2 h0.1

theorem renamePhase2_moves (m : List (String × String)) :
    ∀ (d : Dir),
    (m.map Prod.fst).Nodup → (m.map Prod.snd).Nodup →
    (∀ p ∈ m, ∀ q ∈ m, p.1 ≠ q.2) →
    ∀ p ∈ m, renamePhase2 d m p.2 = d p.1 ∧ renamePhase2 d m p.1 = none := by
  induction m with
  | nil => intro d _ _ _ p hp; cases hp
  | cons hd0 rest ih =>
    intro d hk hv hx p hp
    obtain ⟨t, n⟩ := hd0
    simp only [List.map_cons, List.nodup_cons] at hk hv
    rcases List.mem_cons.mp hp with rfl | hp2
    · constructor
      · rw [renamePhase2, renamePhase2_untouched rest _ n ?_]
        · exact fsRename_dst ..
        · intro q hq
          refine ⟨fun hq1 => ?_, fun hq2 => ?_⟩
          · exact hx q (List.mem_cons_of_mem _ hq) (t, n) (by simp) hq1.symm
          · exact hv.1 (hq2 ▸ List.mem_map_of_mem Prod.snd hq)
      · rw [renamePhase2, renamePhase2_untouched rest _ t ?_]
        · exact fsRename_src d t n (hx (t, n) (by simp) (t, n) (by simp))
        · intro q hq
          refine ⟨fun hq1 => ?_, fun hq2 => ?_⟩
          · exact hk.1 (hq1 ▸ List.mem_map_of_mem Prod.fst hq)
          · exact hx (t, n) (by simp) q (List.mem_cons_of_mem _ hq) hq2
    · have hrec := ih (fsRename d t n) hk.2 hv.2
        (fun a ha b hb => hx a (List.mem_cons_of_mem _ ha) b (List.mem_cons_of_mem _ hb))
        p hp2
      constructor
      · rw [renamePhase2, hrec.1]
        refine fsRename_other d t n p.1 ?_ ?_
        · exact hx p (List.mem_cons_of_mem _ hp2) (t, n) (by simp)
        · intro h
          exact hk.1 (h ▸ List.mem_map_of_mem Prod.fst hp2)
      · rw [renamePhase2]
        exact hrec.2

theorem renamePhase1_untouched (pairs : List (String × String)) :
    ∀ (d : Dir) (i : ℕ) (x : String),
    (∀ p ∈ pairs, p.2 ≠ p.1 → x ≠ p.1) →
    (∀ k < pairs.length, x ≠ tempName (i + k)) →
    (renamePhase1 d i pairs).1 x = d x := by
  induction pairs with
  | nil => intro d i x _ _; rfl
  | cons p rest ih =>
    intro d i x hold htemp
    obtain ⟨o, n⟩ := p
    have hrest : ∀ q ∈ rest, q.2 ≠ q.1 → x ≠ q.1 :=
      fun q hq => hold q (List.mem_cons_of_mem _ hq)
    have htrest : ∀ k < rest.length, x ≠ tempName (i + 1 + k) := by
      intro k hk
      have := htemp (k + 1) (by simp; omega)
      exact fun h => this (h.trans (congrArg tempName (by omega)))
    by_cases hno : n = o
    · rw [renamePhase1, if_pos hno]
      exact ih d (i + 1) x hrest htrest
    · rw [renamePhase1, if_neg hno]
      rw [ih _ (i + 1) x hrest htrest]
      exact fsRename_other d o (tempName i) x
        (by simpa using htemp 0 (by simp)) (hold (o, n) (by simp) hno)

theorem renamePhase1_moved_old (pairs : List (String × String)) :
    ∀ (d : Dir) (i : ℕ),
    (pairs.map Prod.fst).Nodup →
    (∀ k < pairs.length, ∀ p ∈ pairs, tempName (i + k) ≠ p.1) →
    ∀ p ∈ pairs, p.2 ≠ p.1 → (renamePhase1 d i pairs).1 p.1 = none := by
  induction pairs with
  | nil => intro d i _ _ p hp; cases hp
  | cons hd0 rest ih =>
    intro d i hk htemp p hp hmoved
    obtain ⟨o, n⟩ := hd0
    simp only [List.map_cons, List.nodup_cons] at hk
    have htrest : ∀ k < rest.length, ∀ q ∈ rest, tempName (i + 1 + k) ≠ q.1 := by
      intro k hk2 q hq
      have := htemp (k + 1) (by simp; omega) q (List.mem_cons_of_mem _ hq)
      exact fun h => this ((congrArg tempName (by omega : i + (k + 1) = i + 1 + k)).trans h)
    rcases List.mem_cons.mp hp with rfl | hp2
    · rw [renamePhase1, if_neg hmoved]
      rw [renamePhase1_untouched rest _ (i + 1) o ?_ ?_]
      · exact fsRename_src d o (tempName i)
          (fun h => htemp 0 (by simp) (o, n) (by simp) (by simpa using h.symm))
      · intro q hq hqm h
        exact hk.1 (h ▸ List.mem_map_of_mem Prod.fst hq)
      · intro k hk2 h
        exact htemp (k + 1) (by simp; omega) (o, n) (by simp)
          ((congrArg tempName (by omega : i + (k + 1) = i + 1 + k)).trans h.symm)
    · by_cases hno : n = o
      · rw [renamePhase1, if_pos hno]
        exact ih d (i + 1) hk.2 htrest p hp2 hmoved
      · rw [renamePhase1, if_neg hno]
        exact ih _ (i + 1) hk.2 htrest p hp2 hmoved

theorem renamePhase1_temp (pairs : List (String × String)) :
    ∀ (d : Dir) (i k : ℕ) (hk : k < pairs.length),
    (pairs.map Prod.fst).Nodup →
    (∀ j < pairs.length, ∀ p ∈ pairs, tempName (i + j) ≠ p.1) →
    (renamePhase1 d i pairs).1 (tempName (i + k)) =
      if (pairs.get ⟨k, hk⟩).2 = (pairs.get ⟨k, hk⟩).1 then d (tempName (i + k))
      else d (pairs.get ⟨k, hk⟩).1 := by
  induction pairs with
  | nil => intro d i k hk; cases hk
  | cons p rest ih =>
    intro d i k hk hnd htemp
    obtain ⟨o, n⟩ := p
    simp only [List.map_cons, List.nodup_cons] at hnd
    have htrest : ∀ j < rest.length, ∀ q ∈ rest, tempName (i + 1 + j) ≠ q.1 := by
      intro j hj q hq
      have := htemp (j + 1) (by simp; omega) q (List.mem_cons_of_mem _ hq)
      exact fun h =>
        this ((congrArg tempName (by omega : i + (j + 1) = i + 1 + j)).trans h)
    match k with
    | 0 =>
      simp only [List.get]
      by_cases hno : n = o
      · rw [renamePhase1, if_pos hno, if_pos hno]
        apply renamePhase1_untouched
        · intro q hq _ h
          exact htemp 0 (by simp) q (List.mem_cons_of_mem _ hq) h
        · intro j hj h
          have := tempName_inj h
          omega
      · rw [renamePhase1, if_neg hno, if_neg hno]
        rw [renamePhase1_untouched rest _ (i + 1) (tempName (i + 0)) ?_ ?_]
        · show fsRename d o (tempName i) (tempName (i + 0)) = d o
          rw [(congrArg tempName (by omega : i + 0 = i) :
            tempName (i + 0) = tempName i), fsRename_dst]
        · intro q hq _ h
          exact htemp 0 (by simp) q (List.mem_cons_of_mem _ hq) h
        · intro j hj h
          have := tempName_inj h
          omega
    | k' + 1 =>
      have hk' : k' < rest.length := by simpa using Nat.lt_of_succ_lt_succ hk
      simp only [List.get]
      have harith : tempName (i + (k' + 1)) = tempName (i + 1 + k') :=
        congrArg tempName (by omega)
      by_cases hno : n = o
      · rw [renamePhase1, if_pos hno, harith]
        exact ih d (i + 1) k' hk' hnd.2 htrest
      · rw [renamePhase1, if_neg hno, harith]
        rw [ih (fsRename d o (tempName i)) (i + 1) k' hk' hnd.2 htrest]
        split
        · refine fsRename_other d o (tempName i) _ ?_ ?_
          · intro h
            have := tempName_inj h
            omega
          · intro h
            refine htemp (k' + 1) (by simpa using Nat.succ_lt_succ hk') (o, n)
              (by simp) ?_
            rw [congrArg tempName (by omega : i + (k' + 1) = i + 1 + k')]
            exact h
        · refine fsRename_other d o (tempName i) _ ?_ ?_
          · intro h
            refine htemp 0 (by simp) (rest.get ⟨k', hk'⟩)
              (List.mem_cons_of_mem _ (List.get_mem ..)) ?_
            rw [congrArg tempName (by omega : i + 0 = i)]
            exact h.symm
          · intro h
            exact hnd.1 (h ▸ List.mem_map_of_mem Prod.fst (List.get_mem ..))

/-- If the images of a map over a list are nodup, equal images force
equal elements. -/
theorem nodup_map_eq {α β : Type} {l : List α} {f : α → β}
    (h : (l.map f).Nodup) :
    ∀ a ∈ l, ∀ b ∈ l, f a = f b → a = b := by
  induction l with
  | nil => intro a ha; cases ha
  | cons x rest ih =>
    simp only [List.map_cons, List.nodup_cons] at h
    intro a ha b hb hf
    rcases List.mem_cons.mp ha with rfl | ha2 <;>
      rcases List.mem_cons.mp hb with rfl | hb2
    · rfl
    · exact absurd (hf ▸ List.mem_map_of_mem f hb2) h.1
    · exact absurd (hf ▸ List.mem_map_of_mem f ha2) h.1
    · exact ih h.2 a ha2 b hb2 hf

/-- C2: the two-phase rename of `normalizeGlyphNames` is collision-safe.
For any old→new file-name mapping whose old names are distinct, whose
new names are distinct, and whose names do not collide with the
temporary namespace (true of real glyph files, whose names end in
`.glif` while temporaries do not), the final directory holds exactly
the new names — each with the contents of the old file of its glyph —
old names not reused are gone, every unrelated file is untouched, and
no temporary file remains. -/
theorem C2_normalizeGlyphNames_two_phase_rename (d : Dir)
    (pairs : List (String × String))
    (hOld : (pairs.map Prod.fst).Nodup)
    (hNew : (pairs.map Prod.snd).Nodup)
    (hTempFree : ∀ i < pairs.length, ∀ p ∈ pairs,
      tempName i ≠ p.1 ∧ tempName i ≠ p.2)
    (hTempDisk : ∀ i < pairs.length, d (tempName i) = none) :
    (∀ p ∈ pairs, normalizeGlyphNamesRenames d pairs p.2 = d p.1) ∧
    (∀ p ∈ pairs, p.1 ∉ pairs.map Prod.snd →
      normalizeGlyphNamesRenames d pairs p.1 = none) ∧
    (∀ x, x ∉ pairs.map Prod.fst → x ∉ pairs.map Prod.snd →
      (∀ i < pairs.length, x ≠ tempName i) →
      normalizeGlyphNamesRenames d pairs x = d x) ∧
    (∀ i < pairs.length, normalizeGlyphNamesRenames d pairs (tempName i) = none) := by
  have hsnd := renamePhase1_snd pairs d 0
  set m := tempMapping 0 pairs with hm
  set d1 := (renamePhase1 d 0 pairs).1 with hd1
  have hfinal : normalizeGlyphNamesRenames d pairs = renamePhase2 d1 m := by
    unfold normalizeGlyphNamesRenames
    rw [hsnd]
  have htemp0 : ∀ j < pairs.length, ∀ p ∈ pairs, tempName (0 + j) ≠ p.1 := by
    intro j hj p hp
    rw [congrArg tempName (Nat.zero_add j)]
    exact (hTempFree j hj p hp).1
  have hKm : (m.map Prod.fst).Nodup := tempMapping_keys_nodup pairs 0
  have hVm : (m.map Prod.snd).Nodup :=
    (tempMapping_values_sublist pairs 0).nodup hNew
  have hXm : ∀ a ∈ m, ∀ b ∈ m, a.1 ≠ b.2 := by
    intro a ha b hb
    obtain ⟨ka, hka, hta, -, -⟩ := tempMapping_mem (show (a.1, a.2) ∈ m by simpa using ha)
    obtain ⟨kb, hkb, -, hsb, -⟩ := tempMapping_mem (show (b.1, b.2) ∈ m by simpa using hb)
    rw [hta, congrArg tempName (Nat.zero_add ka), ← hsb]
    exact (hTempFree ka hka _ (List.get_mem ..)).2
  refine ⟨?_, ?_, ?_, ?_⟩
  · intro p hp
    rw [hfinal]
    by_cases hmv : p.2 = p.1
    · have hnotkey : ∀ q ∈ m, p.2 ≠ q.1 ∧ p.2 ≠ q.2 := by
        intro q hq
        obtain ⟨k, hk, ht, hs, hne⟩ :=
          tempMapping_mem (show (q.1, q.2) ∈ m by simpa using hq)
        constructor
        · rw [ht, congrArg tempName (Nat.zero_add k)]
          exact fun h => (hTempFree k hk p hp).2 h.symm
        · intro h
          have hpg : p = pairs.get ⟨k, hk⟩ :=
            nodup_map_eq hNew p hp _ (List.get_mem ..) (by rw [h, hs])
          refine hne ?_
          rw [← hs, ← hpg]
          exact hmv
      rw [renamePhase2_untouched m d1 p.2 hnotkey, hd1]
      rw [renamePhase1_untouched pairs d 0 p.2 ?_ ?_]
      · exact congrArg d hmv
      · intro q hq hqmv h
        have : q = p := nodup_map_eq hOld q hq p hp (by rw [← h, hmv])
        exact hqmv (by rw [this, hmv])
      · intro k hk h
        exact (hTempFree k hk p hp).2
          ((congrArg tempName (Nat.zero_add k)).symm.trans h.symm)
    · obtain ⟨⟨k, hk⟩, hget⟩ := List.mem_iff_get.mp hp
      have hentry : (tempName (0 + k), p.2) ∈ m := by
        have hmm := tempMapping_mem_of pairs 0 k hk (by rw [hget]; exact hmv)
        rw [hget] at hmm
        exact hmm
      have hmove := (renamePhase2_moves m d1 hKm hVm hXm _ hentry).1
      rw [hmove, hd1]
      have hpt := renamePhase1_temp pairs d 0 k hk hOld htemp0
      rw [hget] at hpt
      rw [hpt, if_neg hmv]
  · intro p hp hnotnew
    rw [hfinal]
    by_cases hmv : p.2 = p.1
    · exact absurd (hmv ▸ List.mem_map_of_mem Prod.snd hp) hnotnew
    · rw [renamePhase2_untouched m d1 p.1 ?_, hd1]
      · exact renamePhase1_moved_old pairs d 0 hOld htemp0 p hp hmv
      · intro q hq
        obtain ⟨k, hk, ht, hs, -⟩ :=
          tempMapping_mem (show (q.1, q.2) ∈ m by simpa using hq)
        constructor
        · rw [ht, congrArg tempName (Nat.zero_add k)]
          exact fun h => (hTempFree k hk p hp).1 h.symm
        · intro h
          refine hnotnew ?_
          rw [h, ← hs]
          exact List.mem_map_of_mem Prod.snd (List.get_mem ..)
  · intro x hxo hxn hxt
    rw [hfinal]
    rw [renamePhase2_untouched m d1 x ?_, hd1]
    · apply renamePhase1_untouched
      · intro q hq _ h
        exact hxo (h ▸ List.mem_map_of_mem Prod.fst hq)
      · intro k hk
        rw [congrArg tempName (Nat.zero_add k)]
        exact hxt k hk
    · intro q hq
      obtain ⟨k, hk, ht, hs, -⟩ :=
        tempMapping_mem (show (q.1, q.2) ∈ m by simpa using hq)
      constructor
      · rw [ht, congrArg tempName (Nat.zero_add k)]
        exact hxt k hk
      · intro h
        refine hxn ?_
        rw [h, ← hs]
        exact List.mem_map_of_mem Prod.snd (List.get_mem ..)
  · intro i hi
    rw [hfinal]
    by_cases hmv : (pairs.get ⟨i, hi⟩).2 = (pairs.get ⟨i, hi⟩).1
    · rw [renamePhase2_untouched m d1 (tempName i) ?_, hd1]
      · have hpt := renamePhase1_temp pairs d 0 i hi hOld htemp0
        rw [if_pos hmv] at hpt
        rw [show tempName i = tempName (0 + i) from congrArg tempName (by omega),
          hpt, show tempName (0 + i) = tempName i from congrArg tempName (by omega)]
        exact hTempDisk i hi
      · intro q hq
        obtain ⟨k, hk, ht, hs, hne⟩ :=
          tempMapping_mem (show (q.1, q.2) ∈ m by simpa using hq)
        constructor
        · rw [ht, congrArg tempName (Nat.zero_add k)]
          intro h
          have hik := tempName_inj h
          subst hik
          refine hne ?_
          rw [← hs, hmv]
        · intro h
          refine (hTempFree i hi (pairs.get ⟨k, hk⟩) (List.get_mem ..)).2 ?_
          rw [h, ← hs]
    · have hentry := tempMapping_mem_of pairs 0 i hi hmv
      have h2 := (renamePhase2_moves m d1 hKm hVm hXm _ hentry).2
      rw [show tempName i = tempName (0 + i) from congrArg tempName (by omega)]
      exact h2

theorem C2_normalizeGlyphNames_two_phase_rename_witness :
    normalizeGlyphNamesRenames swapDir swapPairs "B.glif" = some "contentsA" ∧
    normalizeGlyphNamesRenames swapDir swapPairs "A.glif" = some "contentsB" ∧
    normalizeGlyphNamesRenames swapDir swapPairs "other.txt" = some "other" ∧
    normalizeGlyphNamesRenames swapDir swapPairs (tempName 0) = none := by
  have h := C2_normalizeGlyphNames_two_phase_rename swapDir swapPairs
    (by decide) (by decide) (by decide) (by decide)
  refine ⟨?_, ?_, ?_, ?_⟩
  · exact h.1 ("A.glif", "B.glif") (by decide)
  · exact h.1 ("B.glif", "A.glif") (by decide)
  · exact h.2.2.1 "other.txt" (by decide) (by decide) (by decide)
  · exact h.2.2.2 0 (by decide)

theorem splitAux_sep (l : List Char) (h : ∀ c ∈ l, pyIsLineBreak c = false)
    (rest acc : List Char) :
    pySplitlinesAux (l ++ '\n' :: rest) acc =
      (acc.reverse ++ l) :: pySplitlinesAux rest [] := by
  induction l generalizing acc with
  | nil => simp [pySplitlinesAux, pyIsLineBreak]
  | cons c t ih =>
    have hc := h c (List.mem_cons_self c t)
    have hc13 : c ≠ '\x0d' := by
      intro hc13; rw [hc13] at hc; simp [pyIsLineBreak] at hc
    rw [List.cons_append, pySplitlinesAux.eq_def]
    split
    · simp_all
    · rename_i heq; rw [List.cons_eq_cons] at heq; exact absurd heq.1 hc13
    · rename_i a1 a2 a3 cc tt hno heq
      rw [List.cons_eq_cons] at heq
      obtain ⟨h1, h2⟩ := heq
      subst h1
      rw [← h2, if_neg (by rw [hc]; exact Bool.false_ne_true)]
      rw [ih (fun x hm => h x (List.mem_cons_of_mem _ hm)) (c :: a1)]
      simp

theorem splitAux_last (l : List Char) (h : ∀ c ∈ l, pyIsLineBreak c = false) :
    ∀ acc : List Char,
    pySplitlinesAux l acc =
      if acc.isEmpty ∧ l.isEmpty then [] else [acc.reverse ++ l] := by
  induction l with
  | nil =>
    intro acc
    by_cases he : acc.isEmpty
    · simp [pySplitlinesAux, he]
    · simp [pySplitlinesAux, he]
  | cons c t ih =>
    intro acc
    have hc := h c (List.mem_cons_self c t)
    have hc13 : c ≠ '\x0d' := by
      intro hc13; rw [hc13] at hc; simp [pyIsLineBreak] at hc
    rw [pySplitlinesAux.eq_def]
    split
    · simp_all
    · rename_i heq; rw [List.cons_eq_cons] at heq; exact absurd heq.1 hc13
    · rename_i a1 a2 a3 cc tt hno heq
      rw [List.cons_eq_cons] at heq
      obtain ⟨h1, h2⟩ := heq
      subst h1
      rw [← h2, if_neg (by rw [hc]; exact Bool.false_ne_true)]
      rw [ih (fun x hm => h x (List.mem_cons_of_mem _ hm)) (c :: a1)]
      simp

theorem joinWithChar_cons_cons (sep : Char) (x y : List Char) (rest : List (List Char)) :
    joinWithChar sep (x :: y :: rest) = x ++ sep :: joinWithChar sep (y :: rest) := by
  rfl

theorem splitAux_join (ls : List (List Char)) : ∀ l : List Char,
    (∀ c ∈ l, pyIsLineBreak c = false) →
    (∀ s ∈ ls, (∀ c ∈ s, pyIsLineBreak c = false) ∧ s ≠ []) →
    l ≠ [] →
    pySplitlinesAux (joinWithChar '\n' (l :: ls)) [] = l :: ls := by
  induction ls with
  | nil =>
    intro l hl _ hne
    show pySplitlinesAux (joinWithChar '\n' [l]) [] = [l]
    rw [show joinWithChar '\n' [l] = l from rfl]
    rw [splitAux_last l hl []]
    simp [hne]
  | cons s ls ih =>
    intro l hl hs hne
    rw [joinWithChar_cons_cons, splitAux_sep l hl]
    rw [ih s (hs s (List.mem_cons_self s ls)).1
      (fun x hm => hs x (List.mem_cons_of_mem _ hm))
      (hs s (List.mem_cons_self s ls)).2]
    simp

theorem intercalate_go_nl_data (ls : List String) : ∀ acc : String,
    (String.intercalate.go acc "\n" ls).data =
      joinWithChar '\n' (acc.data :: ls.map String.data) := by
  induction ls with
  | nil => intro acc; rw [String.intercalate.go]; rfl
  | cons a as ih =>
    intro acc
    rw [String.intercalate.go, ih]
    rw [show (acc ++ "\n" ++ a).data = acc.data ++ '\n' :: a.data by
      rw [String.data_append, String.data_append]; simp]
    cases as with
    | nil => rfl
    | cons b bs =>
      simp [joinWithChar_cons_cons]

theorem intercalate_nl_data (a : String) (ls : List String) :
    (String.intercalate "\n" (a :: ls)).data =
      joinWithChar '\n' (a.data :: ls.map String.data) := by
  rw [String.intercalate]
  exact intercalate_go_nl_data ls a

theorem string_mk_data (s : String) : String.mk s.data = s := by cases s; rfl

theorem pySplitlines_intercalate (a : String) (ls : List String)
    (ha : ∀ c ∈ a.data, pyIsLineBreak c = false) (ha0 : a.data ≠ [])
    (hls : ∀ s ∈ ls, (∀ c ∈ s.data, pyIsLineBreak c = false) ∧ s.data ≠ []) :
    pySplitlines (String.intercalate "\n" (a :: ls)) = a :: ls := by
  unfold pySplitlines
  rw [intercalate_nl_data, splitAux_join (ls.map String.data) a.data ha ?_ ha0]
  · rw [List.map_cons, string_mk_data, List.map_map]
    rw [show String.mk ∘ String.data = id from funext fun s => string_mk_data s]
    simp
  · intro s hm
    obtain ⟨t, ht, rfl⟩ := List.mem_map.mp hm
    exact hls t ht

theorem splitOnChar_no_sep (sep : Char) (l : List Char)
    (h : ∀ c ∈ l, c ≠ sep) : splitOnChar sep l = [l] := by
  induction l with
  | nil => rfl
  | cons c t ih =>
    rw [splitOnChar, if_neg (h c (List.mem_cons_self c t))]
    rw [ih (fun x hm => h x (List.mem_cons_of_mem _ hm))]

theorem splitOnChar_append_sep (sep : Char) (a b : List Char)
    (h : ∀ c ∈ a, c ≠ sep) :
    splitOnChar sep (a ++ sep :: b) = a :: splitOnChar sep b := by
  induction a with
  | nil => simp [splitOnChar]
  | cons c t ih =>
    rw [List.cons_append, splitOnChar, if_neg (h c (List.mem_cons_self c t))]
    rw [ih (fun x hm => h x (List.mem_cons_of_mem _ hm))]

theorem dropWhile_eq_self_of_all {p : Char → Bool} (l : List Char)
    (h : ∀ c ∈ l, p c = false) : l.dropWhile p = l := by
  cases l with
  | nil => rfl
  | cons c t => rw [List.dropWhile_cons_of_neg (by simp [h c (List.mem_cons_self c t)])]

theorem pyStripChars_eq_self (l : List Char)
    (h : ∀ c ∈ l, pyIsSpace c = false) : pyStripChars l = l := by
  unfold pyStripChars
  rw [dropWhile_eq_self_of_all l h,
    dropWhile_eq_self_of_all l.reverse (fun c hm => h c (List.mem_reverse.mp hm)),
    List.reverse_reverse]

theorem pyStripChars_space_cons (l : List Char) :
    pyStripChars (' ' :: l) = pyStripChars l := by
  unfold pyStripChars
  rw [List.dropWhile_cons_of_pos (by decide)]

theorem spanDigits_append (a b : List Char) (h : ∀ c ∈ a, c.isDigit = true)
    (hb : ∀ c, b.head? = some c → c.isDigit = false) :
    spanDigits (a ++ b) = (a, b) := by
  induction a with
  | nil =>
    cases b with
    | nil => rfl
    | cons c t =>
      have := hb c rfl
      simp [spanDigits, List.takeWhile, List.dropWhile, this]
  | cons c t ih =>
    have hc := h c (List.mem_cons_self c t)
    have iht := ih (fun x hm => h x (List.mem_cons_of_mem _ hm))
    simp only [spanDigits, List.cons_append, List.takeWhile_cons, List.dropWhile_cons, hc] at *
    simp only [if_true]
    obtain ⟨h1, h2⟩ := Prod.mk.injEq .. ▸ iht
    rw [h1, h2]

theorem breakAtFirstSpace_append (a b : List Char) (h : ∀ c ∈ a, c ≠ ' ') :
    breakAtFirstSpace (a ++ ' ' :: b) = some (a, b) := by
  induction a with
  | nil => simp [breakAtFirstSpace]
  | cons c t ih =>
    rw [List.cons_append, breakAtFirstSpace, if_neg (h c (List.mem_cons_self c t))]
    rw [ih (fun x hm => h x (List.mem_cons_of_mem _ hm))]
    rfl

theorem natStrChars_class (n : ℕ) : ∀ c ∈ natStrChars n,
    c.isDigit = true ∧ pyIsSpace c = false ∧ pyIsLineBreak c = false := by
  intro c hc
  by_cases h : n = 0
  · simp [h, natStrChars] at hc
    subst hc; exact ⟨by decide, by decide, by decide⟩
  · rw [natStrChars, if_neg h] at hc
    rw [List.mem_reverse, List.mem_map] at hc
    obtain ⟨d, hd, rfl⟩ := hc
    have hd10 : d < 10 := natDigsAux_lt 10 (by norm_num) _ _ d hd
    interval_cases d <;> exact ⟨by decide, by decide, by decide⟩

theorem natStrChars_ne_nil (n : ℕ) : natStrChars n ≠ [] := by
  by_cases h : n = 0
  · subst h; simp [natStrChars]
  · rw [natStrChars, if_neg h]
    intro hcon
    rw [List.reverse_eq_nil_iff, List.map_eq_nil_iff] at hcon
    obtain ⟨m, rfl⟩ := Nat.exists_eq_succ_of_ne_zero h
    simp [natDigs, natDigsAux] at hcon

theorem digitChar_isDigit : ∀ d < 10, (digitChar d).isDigit = true := by decide

theorem decValMSF_single (d : ℕ) (hd : d < 10) : decValMSF [digitChar d] = d := by
  unfold decValMSF
  simp only [List.foldl_cons, List.foldl_nil]
  rw [digitChar_toNat d hd]
  omega

theorem natStrChars_lt_ten (d : ℕ) (hd : d < 10) :
    natStrChars d = [digitChar d] := by
  interval_cases d <;> decide

theorem pyFloatChars_decimal (a b : ℕ) (hb : b < 10) :
    pyFloatChars (natStrChars a ++ '.' :: [digitChar b]) =
      some ⟨(a : ℤ) * 10 + b, 10⟩ := by
  obtain ⟨c, rest, hcr⟩ : ∃ c rest, natStrChars a = c :: rest := by
    cases h : natStrChars a with
    | nil => exact absurd h (natStrChars_ne_nil a)
    | cons c rest => exact ⟨c, rest, rfl⟩
  have hcdig : c.isDigit = true :=
    (natStrChars_class a c (hcr ▸ List.mem_cons_self c rest)).1
  have hcp : c ≠ '+' := by intro h; rw [h] at hcdig; simp at hcdig
  have hcm : c ≠ '-' := by intro h; rw [h] at hcdig; simp at hcdig
  have hspan1 : spanDigits (natStrChars a ++ '.' :: [digitChar b]) =
      (natStrChars a, '.' :: [digitChar b]) :=
    spanDigits_append _ _ (fun x hx => (natStrChars_class a x hx).1)
      (fun x hx => by simp at hx; rw [← hx]; decide)
  have hspan2 : spanDigits [digitChar b] = ([digitChar b], []) :=
    spanDigits_append [digitChar b] [] (fun x hx => by
      simp at hx; rw [hx]; exact digitChar_isDigit b hb) (fun x hx => by simp at hx)
  unfold pyFloatChars
  rw [hcr, List.cons_append]
  have hsign : (match c :: (rest ++ ['.', digitChar b]) with
      | '+' :: r => ((false : Bool), r)
      | '-' :: r => (true, r)
      | x => (false, c :: (rest ++ ['.', digitChar b]))) =
      (false, c :: (rest ++ ['.', digitChar b])) := by
    split
    · rename_i heq; rw [List.cons_eq_cons] at heq; exact absurd heq.1 hcp
    · rename_i heq; rw [List.cons_eq_cons] at heq; exact absurd heq.1 hcm
    · rfl
  rw [hsign]
  dsimp only
  rw [← List.cons_append, ← hcr, hspan1]
  dsimp only
  have hdot : (match ['.', digitChar b] with
      | '.' :: r => spanDigits r
      | x => (([] : List Char), ['.', digitChar b])) = spanDigits [digitChar b] := rfl
  rw [hdot, hspan2]
  rw [if_neg (by simp [natStrChars_ne_nil a])]
  dsimp only
  rw [decValMSF_natStrChars, decValMSF_single b hb]
  norm_num

theorem pyFloatChars_neg_decimal (a b : ℕ) (hb : b < 10) :
    pyFloatChars ('-' :: (natStrChars a ++ '.' :: [digitChar b])) =
      some ⟨-((a : ℤ) * 10 + b), 10⟩ := by
  have hspan1 : spanDigits (natStrChars a ++ '.' :: [digitChar b]) =
      (natStrChars a, '.' :: [digitChar b]) :=
    spanDigits_append _ _ (fun x hx => (natStrChars_class a x hx).1)
      (fun x hx => by simp at hx; rw [← hx]; decide)
  have hspan2 : spanDigits [digitChar b] = ([digitChar b], []) :=
    spanDigits_append [digitChar b] [] (fun x hx => by
      simp at hx; rw [hx]; exact digitChar_isDigit b hb) (fun x hx => by simp at hx)
  unfold pyFloatChars
  have hsign : (match '-' :: (natStrChars a ++ '.' :: [digitChar b]) with
      | '+' :: r => ((false : Bool), r)
      | '-' :: r => (true, r)
      | x => (false, '-' :: (natStrChars a ++ '.' :: [digitChar b]))) =
      (true, natStrChars a ++ '.' :: [digitChar b]) := rfl
  rw [hsign]
  dsimp only
  rw [hspan1]
  dsimp only
  have hdot : (match ['.', digitChar b] with
      | '.' :: r => spanDigits r
      | x => (([] : List Char), ['.', digitChar b])) = spanDigits [digitChar b] := rfl
  rw [hdot, hspan2]
  rw [if_neg (by simp [natStrChars_ne_nil a])]
  dsimp only
  rw [decValMSF_natStrChars, decValMSF_single b hb]
  norm_num

theorem digitChar_class : ∀ d < 10,
    pyIsSpace (digitChar d) = false ∧ pyIsLineBreak (digitChar d) = false := by decide

theorem pyFloat_renderFixed_one (q : PyQ) (hden : 0 < q.den)
    (hrep : roundHalfEven ⟨q.num * 10, q.den⟩ * q.den = 10 * q.num) :
    pyFloat (renderFixed 1 q) = some ⟨roundHalfEven ⟨q.num * 10, q.den⟩, 10⟩ := by
  have hren : renderFixedChars 1 q =
      (if q.num < 0 then ['-'] else []) ++
        (natStrChars ((roundHalfEven ⟨q.num * 10, q.den⟩).natAbs / 10) ++
          '.' :: [digitChar ((roundHalfEven ⟨q.num * 10, q.den⟩).natAbs % 10)]) := by
    unfold renderFixedChars
    rw [if_neg one_ne_zero]
    dsimp only
    simp only [pow_one]
    rw [natStrChars_lt_ten _ (Nat.mod_lt _ (by norm_num))]
    simp
  have hclass : ∀ c ∈ renderFixedChars 1 q, pyIsSpace c = false := by
    rw [hren]
    intro c hc
    rw [List.mem_append] at hc
    rcases hc with hc | hc
    · split at hc
      · simp at hc; rw [hc]; decide
      · simp at hc
    · rw [List.mem_append] at hc
      rcases hc with hc | hc
      · exact (natStrChars_class _ c hc).2.1
      · simp at hc
        rcases hc with hc | hc
        · rw [hc]; decide
        · rw [hc]; exact (digitChar_class _ (Nat.mod_lt _ (by norm_num))).1
  unfold pyFloat renderFixed
  rw [show (String.mk (renderFixedChars 1 q)).data = renderFixedChars 1 q from rfl]
  rw [pyStripChars_eq_self _ hclass, hren]
  by_cases hneg : q.num < 0
  · rw [if_pos hneg]
    rw [show (['-'] ++ (natStrChars ((roundHalfEven ⟨q.num * 10, q.den⟩).natAbs / 10) ++
        '.' :: [digitChar ((roundHalfEven ⟨q.num * 10, q.den⟩).natAbs % 10)])) =
      '-' :: (natStrChars ((roundHalfEven ⟨q.num * 10, q.den⟩).natAbs / 10) ++
        '.' :: [digitChar ((roundHalfEven ⟨q.num * 10, q.den⟩).natAbs % 10)]) from rfl]
    rw [pyFloatChars_neg_decimal _ _ (Nat.mod_lt _ (by norm_num))]
    have hn0 : roundHalfEven ⟨q.num * 10, q.den⟩ < 0 := by
      nlinarith [hrep]
    simp only [Option.some.injEq, PyQ.mk.injEq]
    refine ⟨?_, trivial⟩
    omega
  · rw [if_neg hneg]
    rw [List.nil_append]
    rw [pyFloatChars_decimal _ _ (Nat.mod_lt _ (by norm_num))]
    have hn0 : 0 ≤ roundHalfEven ⟨q.num * 10, q.den⟩ := by
      nlinarith [hrep]
    simp only [Option.some.injEq, PyQ.mk.injEq]
    refine ⟨?_, trivial⟩
    omega

theorem renderFixedChars_one_class (q : PyQ) :
    ∀ c ∈ renderFixedChars 1 q,
      pyIsSpace c = false ∧ pyIsLineBreak c = false := by
  intro c hc
  unfold renderFixedChars at hc
  rw [if_neg one_ne_zero] at hc
  simp only [List.mem_append, List.mem_cons, List.mem_replicate] at hc
  rcases hc with (hc | hc) | hc | hc
  · split at hc
    · simp at hc; rw [hc]; exact ⟨by decide, by decide⟩
    · simp at hc
  · exact (natStrChars_class _ c hc).2
  · rw [hc]; exact ⟨by decide, by decide⟩
  · rcases hc with ⟨-, hc⟩ | hc
    · rw [hc]; exact ⟨by decide, by decide⟩
    · exact (natStrChars_class _ c hc).2

theorem pyDictGet_pyDictSet_self {α : Type} (l : List (String × α)) (k : String) (v : α) :
    pyDictGet (pyDictSet l k v) k = some v := by
  induction l with
  | nil => simp [pyDictSet, pyDictGet, List.find?]
  | cons p rest ih =>
    obtain ⟨k2, v2⟩ := p
    by_cases h : k2 = k
    · simp [pyDictSet, h, pyDictGet, List.find?]
    · simp only [pyDictSet, if_neg h]
      simp only [pyDictGet, List.find?] at ih ⊢
      rw [show ((k2, v2).1 == k) = false by simpa using h]
      exact ih

theorem insertSortedBy_perm {α : Type} (le : α → α → Bool) (x : α) (l : List α) :
    (insertSortedBy le x l).Perm (x :: l) := by
  induction l with
  | nil => exact List.Perm.refl _
  | cons y rest ih =>
    by_cases h : le x y
    · rw [insertSortedBy, if_pos h]
    · rw [insertSortedBy, if_neg h]
      exact List.Perm.trans (List.Perm.cons y ih) (List.Perm.swap x y rest)

theorem sortBy_perm {α : Type} (le : α → α → Bool) (l : List α) :
    (sortBy le l).Perm l := by
  induction l with
  | nil => exact List.Perm.refl _
  | cons x rest ih =>
    unfold sortBy at ih ⊢
    rw [List.foldr_cons]
    exact List.Perm.trans (insertSortedBy_perm le x _) (List.Perm.cons x ih)

theorem pyDictGet_eq_none_iff {α : Type} (l : List (String × α)) (k : String) :
    pyDictGet l k = none ↔ ∀ p ∈ l, p.1 ≠ k := by
  unfold pyDictGet
  rw [Option.map_eq_none', List.find?_eq_none]
  constructor
  · intro h p hp
    have := h p hp
    simpa using this
  · intro h p hp
    simpa using h p hp

theorem pyDictGet_some_of_nodup {α : Type} (l : List (String × α))
    (hnd : (l.map Prod.fst).Nodup) (p : String × α) (hp : p ∈ l) :
    pyDictGet l p.1 = some p.2 := by
  induction l with
  | nil => cases hp
  | cons q rest ih =>
    rw [List.map_cons, List.nodup_cons] at hnd
    rcases List.mem_cons.mp hp with rfl | hp2
    · unfold pyDictGet
      rw [List.find?_cons_of_pos _ (by simp)]
      rfl
    · have hne : q.1 ≠ p.1 := by
        intro h
        exact hnd.1 (h ▸ List.mem_map_of_mem Prod.fst hp2)
      unfold pyDictGet
      rw [List.find?_cons_of_neg _ (by simpa using hne)]
      exact ih hnd.2 hp2

theorem pyDictGet_perm {α : Type} (l l' : List (String × α))
    (hperm : l.Perm l') (hnd : (l.map Prod.fst).Nodup) (k : String) :
    pyDictGet l' k = pyDictGet l k := by
  cases hget : pyDictGet l k with
  | none =>
    rw [pyDictGet_eq_none_iff] at hget ⊢
    exact fun p hp => hget p (hperm.mem_iff.mpr hp)
  | some v =>
    have hget' := hget
    unfold pyDictGet at hget'
    obtain ⟨p, hfind, hmap⟩ := Option.map_eq_some'.mp hget'
    have hpk : p.1 = k := by simpa using List.find?_some hfind
    have hpl : p ∈ l := List.mem_of_find?_eq_some hfind
    have hnd' : (l'.map Prod.fst).Nodup := ((hperm.map Prod.fst).nodup_iff).mp hnd
    have hsome := pyDictGet_some_of_nodup l' hnd' p (hperm.mem_iff.mp hpl)
    rw [hpk] at hsome
    rw [hsome, hmap]

theorem pyDictSet_absent {α : Type} (l : List (String × α)) (k : String) (v : α)
    (h : k ∉ l.map Prod.fst) : pyDictSet l k v = l ++ [(k, v)] := by
  induction l with
  | nil => rfl
  | cons p rest ih =>
    rw [List.map_cons, List.mem_cons] at h
    push_neg at h
    obtain ⟨a, b⟩ := p
    rw [show pyDictSet ((a, b) :: rest) k v =
      if a = k then (k, v) :: rest else (a, b) :: pyDictSet rest k v from rfl]
    rw [if_neg (fun hh => h.1 hh.symm), ih h.2, List.cons_append]

theorem foldl_pyDictSet_nconv (entries : List (String × PyQ)) :
    ∀ acc,
    (∀ p ∈ entries, p.1 ∉ acc.map Prod.fst) →
    (entries.map Prod.fst).Nodup →
    entries.foldl
        (fun a p => pyDictSet a p.1 ⟨roundHalfEven ⟨p.2.num * 10, p.2.den⟩, 10⟩) acc =
      acc ++ entries.map
        (fun p => (p.1, (⟨roundHalfEven ⟨p.2.num * 10, p.2.den⟩, 10⟩ : PyQ))) := by
  induction entries with
  | nil => intro acc _ _; simp
  | cons p rest ih =>
    intro acc hfresh hnd
    rw [List.map_cons, List.nodup_cons] at hnd
    rw [List.foldl_cons,
      pyDictSet_absent acc p.1 _ (hfresh p (List.mem_cons_self p rest))]
    rw [ih _ ?_ hnd.2]
    · simp
    · intro q hq
      rw [List.map_append, List.mem_append]
      push_neg
      refine ⟨hfresh q (List.mem_cons_of_mem _ hq), ?_⟩
      simp only [List.map_cons, List.map_nil, List.mem_singleton]
      intro hh
      exact hnd.1 (hh ▸ List.mem_map_of_mem Prod.fst hq)

theorem pyDictGet_map_nconv (l : List (String × PyQ)) (k : String) :
    pyDictGet (l.map fun p => (p.1, (⟨roundHalfEven ⟨p.2.num * 10, p.2.den⟩, 10⟩ : PyQ))) k =
      (pyDictGet l k).map
        (fun t => (⟨roundHalfEven ⟨t.num * 10, t.den⟩, 10⟩ : PyQ)) := by
  unfold pyDictGet
  rw [List.find?_map]
  rw [show ((fun p : String × PyQ => p.1 == k) ∘
      fun p : String × PyQ => (p.1, (⟨roundHalfEven ⟨p.2.num * 10, p.2.den⟩, 10⟩ : PyQ))) =
    (fun p : String × PyQ => p.1 == k) from rfl]
  rw [Option.map_map, Option.map_map]
  rfl

theorem string_ne_empty_of_data_ne_nil (s : String) (h : s.data ≠ []) : s ≠ "" := by
  intro hcon
  rw [hcon] at h
  exact h rfl

theorem version_extract (v : String) (hc : ∀ c ∈ v.data, c ≠ ':')
    (hs : pyStrip v = v) :
    String.mk (pyStripChars ((splitOnChar ':' ("version: " ++ v).data).getLastD [])) = v := by
  rw [String.data_append]
  rw [show ("version: ").data = ['v','e','r','s','i','o','n',':',' '] from rfl]
  rw [show (['v','e','r','s','i','o','n',':',' '] ++ v.data) =
    (['v','e','r','s','i','o','n'] ++ (':' :: (' ' :: v.data))) by simp]
  rw [splitOnChar_append_sep ':' _ _ (by decide)]
  rw [splitOnChar_no_sep ':' _ (fun c hcm => by
    rcases List.mem_cons.mp hcm with rfl | hcm2
    · decide
    · exact hc c hcm2)]
  rw [show ([['v','e','r','s','i','o','n'], ' ' :: v.data].getLastD []) = ' ' :: v.data from rfl]
  rw [pyStripChars_space_cons]
  have hd := congrArg String.data hs
  rw [show (pyStrip v).data = pyStripChars v.data from rfl] at hd
  rw [hd]

theorem readModTimeLines_stored (entries : List (String × PyQ)) :
    ∀ acc,
    (∀ p ∈ entries, 0 < p.2.den ∧
      roundHalfEven ⟨p.2.num * 10, p.2.den⟩ * p.2.den = 10 * p.2.num) →
    readModTimeLines (entries.map fun p => renderFixed 1 p.2 ++ " " ++ p.1) acc =
      .ok (entries.foldl
        (fun a p => pyDictSet a p.1 ⟨roundHalfEven ⟨p.2.num * 10, p.2.den⟩, 10⟩) acc) := by
  induction entries with
  | nil => intro acc _; rfl
  | cons p rest ih =>
    intro acc hgood
    obtain ⟨hden, hrep⟩ := hgood p (List.mem_cons_self p rest)
    rw [List.map_cons, readModTimeLines]
    have hdata : (renderFixed 1 p.2 ++ " " ++ p.1).data =
        renderFixedChars 1 p.2 ++ ' ' :: p.1.data := by
      rw [String.data_append, String.data_append]
      rw [show (renderFixed 1 p.2).data = renderFixedChars 1 p.2 from rfl]
      simp
    rw [hdata, breakAtFirstSpace_append _ _ (fun c hcm hsp => by
      have := (renderFixedChars_one_class p.2 c hcm).1
      rw [hsp] at this
      simp [pyIsSpace] at this)]
    dsimp only
    rw [show String.mk (renderFixedChars 1 p.2) = renderFixed 1 p.2 from rfl]
    rw [pyFloat_renderFixed_one p.2 hden hrep]
    rw [string_mk_data]
    dsimp only
    rw [ih _ (fun q hq => hgood q (List.mem_cons_of_mem _ hq))]
    rw [List.foldl_cons]

/-- C6 (amended): storing a mod-time mapping with `storeModTimes` and
loading it back with `readModTimes` under the same tool version returns
a mapping with the same keys whose values are the stored times rounded
to one decimal place; when every time is exactly representable with one
decimal (the hypothesis `hgood`), every value is read back numerically
equal, so the round trip is the identity up to numeric equality of
times.  Loading under a different version tag returns the empty
mapping.  The key and version hypotheses rule out names that break the
line-oriented serialization itself (embedded line breaks, a colon or
surrounding whitespace in the version tag). -/
theorem C6_mod_time_round_trip (version v' : String) (lib : List (String × String))
    (m : List (String × PyQ))
    (hkeys : (m.map Prod.fst).Nodup)
    (hkeyLB : ∀ p ∈ m, ∀ c ∈ p.1.data, pyIsLineBreak c = false)
    (hverC : ∀ c ∈ version.data, c ≠ ':' ∧ pyIsLineBreak c = false)
    (hverS : pyStrip version = version)
    (hgood : ∀ p ∈ m, 0 < p.2.den ∧
      roundHalfEven ⟨p.2.num * 10, p.2.den⟩ * p.2.den = 10 * p.2.num) :
    (∃ ms, readModTimes version (storeModTimes version lib m) = .ok ms ∧
      (∀ k q, pyDictGet m k = some q →
        ∃ q', pyDictGet ms k = some q' ∧ q'.eqv q = true) ∧
      (∀ k, pyDictGet m k = none → pyDictGet ms k = none)) ∧
    (v' ≠ version → readModTimes v' (storeModTimes version lib m) = .ok []) := by
  have hperm : (sortBy modTimeItemLE m).Perm m := sortBy_perm _ m
  have hsortnd : ((sortBy modTimeItemLE m).map Prod.fst).Nodup :=
    ((hperm.map Prod.fst).nodup_iff).mpr hkeys
  obtain ⟨L, hLdef⟩ : ∃ L, (sortBy modTimeItemLE m).map
      (fun p => renderFixed 1 p.2 ++ " " ++ p.1) = L := ⟨_, rfl⟩
  have hverline : ∀ c ∈ ("version: " ++ version).data, pyIsLineBreak c = false := by
    rw [String.data_append]
    intro c hc
    rcases List.mem_append.mp hc with hc | hc
    · have hcl : c ∈ ['v','e','r','s','i','o','n',':',' '] := hc
      simp only [List.mem_cons, List.not_mem_nil, or_false] at hcl
      rcases hcl with rfl | rfl | rfl | rfl | rfl | rfl | rfl | rfl | rfl <;> decide
    · exact (hverC c hc).2
  have hverdatane : ("version: " ++ version).data ≠ [] := by
    rw [String.data_append]
    simp [show ("version: ").data = ['v','e','r','s','i','o','n',':',' '] from rfl]
  have hlines : ∀ s ∈ L,
      (∀ c ∈ s.data, pyIsLineBreak c = false) ∧ s.data ≠ [] := by
    intro s hs
    rw [← hLdef] at hs
    obtain ⟨p, hp, rfl⟩ := List.mem_map.mp hs
    have hdata : (renderFixed 1 p.2 ++ " " ++ p.1).data =
        renderFixedChars 1 p.2 ++ ' ' :: p.1.data := by
      rw [String.data_append, String.data_append]
      rw [show (renderFixed 1 p.2).data = renderFixedChars 1 p.2 from rfl]
      simp
    constructor
    · rw [hdata]
      intro c hc
      rcases List.mem_append.mp hc with hc | hc
      · exact (renderFixedChars_one_class p.2 c hc).2
      · rcases List.mem_cons.mp hc with rfl | hc2
        · decide
        · exact hkeyLB p (hperm.mem_iff.mp hp) c hc2
    · rw [hdata]; simp
  have hsplit := pySplitlines_intercalate ("version: " ++ version) L
    hverline hverdatane hlines
  have htextne : String.intercalate "\n" (("version: " ++ version) :: L) ≠ "" := by
    apply string_ne_empty_of_data_ne_nil
    rw [intercalate_nl_data]
    cases hL2 : L.map String.data with
    | nil => exact hverdatane
    | cons y ys =>
      rw [joinWithChar_cons_cons]
      simp
  have hread : ∀ vq : String, readModTimes vq (storeModTimes version lib m) =
      if version ≠ vq then .ok []
      else readModTimeLines L [] := by
    intro vq
    unfold storeModTimes readModTimes
    rw [hLdef, pyDictGet_pyDictSet_self]
    dsimp only
    rw [if_neg htextne, hsplit]
    dsimp only
    rw [version_extract version (fun c hcm => (hverC c hcm).1) hverS]
  refine ⟨?_, ?_⟩
  · refine ⟨(sortBy modTimeItemLE m).map
      (fun p => (p.1, (⟨roundHalfEven ⟨p.2.num * 10, p.2.den⟩, 10⟩ : PyQ))), ?_, ?_, ?_⟩
    · rw [hread version, if_neg (by simp), ← hLdef]
      rw [readModTimeLines_stored (sortBy modTimeItemLE m) []
        (fun p hp => hgood p (hperm.mem_iff.mp hp))]
      rw [foldl_pyDictSet_nconv (sortBy modTimeItemLE m) [] (by simp) hsortnd]
      rw [List.nil_append]
    · intro k q hq
      refine ⟨⟨roundHalfEven ⟨q.num * 10, q.den⟩, 10⟩, ?_, ?_⟩
      · rw [pyDictGet_map_nconv,
          pyDictGet_perm m (sortBy modTimeItemLE m) hperm.symm hkeys k, hq]
        rfl
      · have hq' := hq
        unfold pyDictGet at hq'
        obtain ⟨p, hfind, hmap⟩ := Option.map_eq_some'.mp hq'
        have hpl : p ∈ m := List.mem_of_find?_eq_some hfind
        have hrep := (hgood p hpl).2
        rw [← hmap]
        simp only [PyQ.eqv, decide_eq_true_eq]
        rw [hrep]
        ring
    · intro k hk
      rw [pyDictGet_map_nconv,
        pyDictGet_perm m (sortBy modTimeItemLE m) hperm.symm hkeys k, hk]
      rfl
  · intro hne
    rw [hread v', if_pos (fun h => hne h.symm)]

theorem C6_mod_time_round_trip_witness :
    (∃ ms, readModTimes "1.0" (storeModTimes "1.0" []
        [("f", ⟨1, 2⟩), ("a", ⟨3, 1⟩)]) = .ok ms ∧
      (∀ k q, pyDictGet [("f", (⟨1, 2⟩ : PyQ)), ("a", ⟨3, 1⟩)] k = some q →
        ∃ q', pyDictGet ms k = some q' ∧ q'.eqv q = true) ∧
      (∀ k, pyDictGet [("f", (⟨1, 2⟩ : PyQ)), ("a", ⟨3, 1⟩)] k = none →
        pyDictGet ms k = none)) ∧
    ("2.0" ≠ "1.0" → readModTimes "2.0" (storeModTimes "1.0" []
        [("f", ⟨1, 2⟩), ("a", ⟨3, 1⟩)]) = .ok []) :=
  C6_mod_time_round_trip "1.0" "2.0" [] [("f", ⟨1, 2⟩), ("a", ⟨3, 1⟩)]
    (by decide) (by decide) (by decide) (by decide) (by decide)

/-- C10: with an empty prefix the source immediately evaluates
`userName[0]`, so the empty user name raises `IndexError` whatever the
existing set and suffix are; a nonempty user name can never produce
`IndexError` (every other failure path raises a different exception). -/
theorem C10_userNameToFileName_empty_name :
    (∀ existing suf, userNameToFileName "" existing "" suf = .error .indexError) ∧
    (∀ u existing pre suf, u ≠ "" →
      userNameToFileName u existing pre suf ≠ .error .indexError) := by
  constructor
  · intro existing suf
    rfl
  · intro u existing pre suf hu
    unfold userNameToFileName
    split
    · cases hd : u.data with
      | nil =>
        refine absurd ?_ hu
        cases u with
        | mk d =>
          have hd2 : d = [] := hd
          rw [hd2]
      | cons c rest =>
        exact userNameToFileNameBody_ne_indexError _ existing pre suf
    · exact userNameToFileNameBody_ne_indexError _ existing pre suf

end UfoN
